import Mathlib

/-!
Verification of the WeRead bot reading-session engine against its
natural-language specification.  The Python sources are shallowly embedded:
pure functions become Lean functions, stateful routines become explicit
state-passing functions, machine arithmetic is `Nat` with explicit masks,
fallible code returns `Option`, and randomness / HTTP responses are passed
in as oracle parameters.
-/

/-! ## Hex rendering (model of Python `hex(n)[2:]`, lowercase, no width) -/

def hexDigitChar (n : Nat) : Char :=
  if n < 10 then Char.ofNat (48 + n) else Char.ofNat (87 + n)

/-- Fuel-driven core of the hex rendering; fuel `n + 1` always suffices. -/
def natToHexCore : Nat → Nat → List Char
  | 0, _ => []
  | fuel + 1, n =>
    if n < 16 then [hexDigitChar n]
    else natToHexCore fuel (n / 16) ++ [hexDigitChar (n % 16)]

def natToHex (n : Nat) : String := String.mk (natToHexCore (n + 1) n)

/-- Numeric value of one lowercase hex digit, inverse of `hexDigitChar`. -/
def hexDigitVal (c : Char) : Nat :=
  if 97 ≤ c.toNat then c.toNat - 87 else c.toNat - 48

def hexListVal (cs : List Char) : Nat :=
  cs.foldl (fun a c => a * 16 + hexDigitVal c) 0

theorem hexDigitVal_hexDigitChar (n : Nat) (h : n < 16) :
    hexDigitVal (hexDigitChar n) = n := by
  interval_cases n <;> decide

theorem hexListVal_append (xs ys : List Char) :
    hexListVal (xs ++ ys) = ys.foldl (fun a c => a * 16 + hexDigitVal c) (hexListVal xs) := by
  simp [hexListVal, List.foldl_append]

theorem hexListVal_natToHexCore : ∀ fuel n, n < fuel →
    hexListVal (natToHexCore fuel n) = n := by
  intro fuel
  induction fuel with
  | zero => intro n h; omega
  | succ f ih =>
    intro n h
    by_cases h16 : n < 16
    · simp [natToHexCore, h16, hexListVal, hexDigitVal_hexDigitChar n h16]
    · have hdiv : n / 16 < f := by omega
      have hrec := ih (n / 16) hdiv
      simp only [natToHexCore, h16, if_false, hexListVal_append]
      rw [hrec]
      simp [List.foldl, hexDigitVal_hexDigitChar (n % 16) (Nat.mod_lt n (by omega))]
      omega

theorem natToHex_injective {m n : Nat} (h : natToHex m = natToHex n) : m = n := by
  have hm := hexListVal_natToHexCore (m + 1) m (Nat.lt_succ_self m)
  have hn := hexListVal_natToHexCore (n + 1) n (Nat.lt_succ_self n)
  have hdata : natToHexCore (m + 1) m = natToHexCore (n + 1) n :=
    congrArg String.data h
  rw [hdata, hn] at hm
  exact hm.symm

/-! ## The rolling hash `calculate_hash` (src/weread_bot/utils.py lines 85-101)

Python strings are modelled as their lists of characters; `ord(s[j])` is
`codeAt s.data j` (indices used by the source are always in range; the
out-of-range default 0 is never hit). -/

def codeAt : List Char → Nat → Nat
  | [], _ => 0
  | c :: _, 0 => c.toNat
  | _ :: rest, n + 1 => codeAt rest n

/-- One iteration of the `while` body: both accumulators are updated from the
characters at `j` and `j - 1` and masked to 31 bits, exactly as in the source
(`_7032f5`, `_cc1055`). -/
def hashStepPair (cs : List Char) (len j : Nat) (p : Nat × Nat) : Nat × Nat :=
  (0x7FFFFFFF &&& (p.1 ^^^ (codeAt cs j <<< ((len - j) % 30))),
   0x7FFFFFFF &&& (p.2 ^^^ (codeAt cs (j - 1) <<< (j % 30))))

/-- The `while _19094e > 0:` loop, by structural recursion on the trailing
index: from `j + 2` the next index is `j`; at `j = 1` one last iteration runs
(the Python index then becomes -1); at `j = 0` the loop does not run. -/
def hashLoop (cs : List Char) (len : Nat) : Nat → Nat × Nat → Nat × Nat
  | 0, p => p
  | 1, p => hashStepPair cs len 1 p
  | j + 2, p => hashLoop cs len j (hashStepPair cs len (j + 2) p)

def calculate_hash (s : String) : String :=
  let cs := s.data
  let r := hashLoop cs cs.length (cs.length - 1) (0x15051505, 0x15051505)
  natToHex (r.1 + r.2)

/-! ## Payload serialization `encode_data` (utils.py lines 80-82)

A payload is an association list of string keys to (already stringified)
values, modelling the Python dict.  `urllib.parse.quote(v, safe='')`
percent-encodes every UTF-8 byte except ASCII alphanumerics and `_.-~`,
with uppercase hex; `sorted` is modelled by a stable insertion sort on the
lexicographic string order. -/

def utf8Bytes (c : Nat) : List Nat :=
  if c < 0x80 then [c]
  else if c < 0x800 then [0xC0 ||| (c >>> 6), 0x80 ||| (c &&& 0x3F)]
  else if c < 0x10000 then
    [0xE0 ||| (c >>> 12), 0x80 ||| ((c >>> 6) &&& 0x3F), 0x80 ||| (c &&& 0x3F)]
  else
    [0xF0 ||| (c >>> 18), 0x80 ||| ((c >>> 12) &&& 0x3F),
     0x80 ||| ((c >>> 6) &&& 0x3F), 0x80 ||| (c &&& 0x3F)]

def hexUpperDigit (n : Nat) : Char :=
  if n < 10 then Char.ofNat (48 + n) else Char.ofNat (55 + n)

def percentByte (b : Nat) : List Char :=
  ['%', hexUpperDigit (b / 16 % 16), hexUpperDigit (b % 16)]

def isUrlSafe (c : Char) : Bool :=
  ('A' ≤ c && c ≤ 'Z') || ('a' ≤ c && c ≤ 'z') || ('0' ≤ c && c ≤ '9') ||
  c == '_' || c == '.' || c == '-' || c == '~'

def urlencode (s : String) : String :=
  String.mk (s.data.foldr
    (fun c acc =>
      if isUrlSafe c then c :: acc
      else (utf8Bytes c.toNat).foldr (fun b acc2 => percentByte b ++ acc2) acc)
    [])

def insertSorted (x : String) : List String → List String
  | [] => [x]
  | y :: t => if decide (x ≤ y) then x :: y :: t else y :: insertSorted x t

def pySorted (l : List String) : List String := l.foldr insertSorted []

def pyDictGetStr (l : List (String × String)) (k : String) : String :=
  (((l.find? (fun e => e.1 == k)).map (fun e => e.2)).getD "")

def encode_data (payload : List (String × String)) : String :=
  String.intercalate "&"
    ((pySorted (payload.map Prod.fst)).map
      (fun k => k ++ "=" ++ urlencode (pyDictGetStr payload k)))

/-! ## Reference definition of the signature, from the specification's words

"serialize payload as `key=urlencode(value)` pairs joined by `&`, keys
sorted ascending; two accumulators seeded to 0x15051505; starting at
trailing index `j = len-1` and decrementing `j` by 2 while `j > 0`,
`A = (A XOR (code(str[j]) << ((len-j) mod 30))) & 0x7FFFFFFF`,
`B = (B XOR (code(str[j-1]) << (j mod 30))) & 0x7FFFFFFF`; the result is
the lowercase hex rendering of A+B".  The scan is rendered as a fold over
the explicit list of trailing indices. -/

def sweepIndices : Nat → List Nat
  | 0 => []
  | 1 => [1]
  | j + 2 => (j + 2) :: sweepIndices j

def specStep (cs : List Char) (len : Nat) (p : Nat × Nat) (j : Nat) : Nat × Nat :=
  ((p.1 ^^^ (codeAt cs j <<< ((len - j) % 30))) &&& 0x7FFFFFFF,
   (p.2 ^^^ (codeAt cs (j - 1) <<< (j % 30))) &&& 0x7FFFFFFF)

def spec_serialize (payload : List (String × String)) : String :=
  String.intercalate "&"
    ((pySorted (payload.map Prod.fst)).map
      (fun k => k ++ "=" ++ urlencode (pyDictGetStr payload k)))

def spec_signature (payload : List (String × String)) : String :=
  let cs := (spec_serialize payload).data
  let r := (sweepIndices (cs.length - 1)).foldl (specStep cs cs.length) (0x15051505, 0x15051505)
  natToHex (r.1 + r.2)

theorem hashStepPair_eq_specStep (cs : List Char) (len j : Nat) (p : Nat × Nat) :
    hashStepPair cs len j p = specStep cs len p j := by
  simp [hashStepPair, specStep, Nat.and_comm]

theorem hashLoop_eq_fold (cs : List Char) (len : Nat) :
    ∀ j p, hashLoop cs len j p = (sweepIndices j).foldl (specStep cs len) p := by
  intro j
  induction j using Nat.strong_induction_on with
  | _ j ih =>
    match j with
    | 0 => intro p; simp [hashLoop, sweepIndices]
    | 1 => intro p; simp [hashLoop, sweepIndices, hashStepPair_eq_specStep]
    | j + 2 =>
      intro p
      simp only [hashLoop, sweepIndices, List.foldl_cons]
      rw [ih j (by omega), hashStepPair_eq_specStep]

/-- C1: the implementation pipeline `calculate_hash(encode_data(payload))` is
bit-exact equal, for every payload, to the specification's reference
definition (sorted `key=urlencode(value)` serialization, the two-accumulator
31-bit rolling hash over trailing indices stepping by two, lowercase
unpadded hex of A+B). -/
theorem calculate_hash_matches_spec_signature (payload : List (String × String)) :
    calculate_hash (encode_data payload) = spec_signature payload := by
  have hser : encode_data payload = spec_serialize payload := rfl
  simp only [calculate_hash, spec_signature, hser, hashLoop_eq_fold]

/-! ## Claim C4: single-byte avalanche analysis of `calculate_hash`

The loop is characterized as a pure XOR accumulation masked to 31 bits;
a single changed byte therefore changes the digest exactly when the byte's
position is read by the loop at all and the shifted XOR difference of the
old and new character codes survives the `0x7FFFFFFF` mask. -/

/-- Unmasked XOR accumulation of the per-iteration contributions of
`hashLoop` (first component for the `str[j]` reads, second for the
`str[j-1]` reads). -/
def xorSweep (cs : List Char) (len : Nat) : Nat → Nat × Nat
  | 0 => (0, 0)
  | 1 => (codeAt cs 1 <<< ((len - 1) % 30), codeAt cs 0 <<< (1 % 30))
  | j + 2 =>
    ((xorSweep cs len j).1 ^^^ (codeAt cs (j + 2) <<< ((len - (j + 2)) % 30)),
     (xorSweep cs len j).2 ^^^ (codeAt cs (j + 1) <<< ((j + 2) % 30)))

theorem mask_xor_mask (x y M : Nat) : ((M &&& x) ^^^ y) &&& M = (x ^^^ y) &&& M := by
  apply Nat.eq_of_testBit_eq
  intro i
  simp only [Nat.testBit_and, Nat.testBit_xor]
  cases hx : x.testBit i <;> cases hy : y.testBit i <;> cases hM : M.testBit i <;> simp

theorem xor_xor_cancel_left (s x y : Nat) : (s ^^^ x) ^^^ (s ^^^ y) = x ^^^ y := by
  apply Nat.eq_of_testBit_eq
  intro i
  simp only [Nat.testBit_xor]
  cases s.testBit i <;> cases x.testBit i <;> cases y.testBit i <;> simp

theorem shiftLeft_xor_distrib (a b n : Nat) :
    (a ^^^ b) <<< n = (a <<< n) ^^^ (b <<< n) := by
  apply Nat.eq_of_testBit_eq
  intro i
  simp only [Nat.testBit_shiftLeft, Nat.testBit_xor]
  cases h : decide (n ≤ i) <;> simp

theorem xor_ne_of_xor_and_ne_zero {x y M : Nat} (h : (x ^^^ y) &&& M ≠ 0)
    (heq : x &&& M = y &&& M) : False := by
  apply h
  apply Nat.eq_of_testBit_eq
  intro i
  have := congrArg (fun z => z.testBit i) heq
  simp only [Nat.testBit_and, Nat.testBit_xor, Nat.zero_testBit] at *
  cases hx : x.testBit i <;> cases hy : y.testBit i <;> cases hM : M.testBit i <;>
    simp_all

/-- The masked loop equals the seed XOR the unmasked accumulation, masked
once at the end, whenever at least one iteration runs. -/
theorem hashLoop_characterization (cs : List Char) (len : Nat) :
    ∀ j, 0 < j → ∀ a b, hashLoop cs len j (a, b) =
      ((a ^^^ (xorSweep cs len j).1) &&& 0x7FFFFFFF,
       (b ^^^ (xorSweep cs len j).2) &&& 0x7FFFFFFF) := by
  intro j
  induction j using Nat.strong_induction_on with
  | _ j ih =>
    match j with
    | 0 => intro h; omega
    | 1 =>
      intro _ a b
      simp [hashLoop, hashStepPair, xorSweep, Nat.and_comm]
    | j + 2 =>
      intro _ a b
      simp only [hashLoop, hashStepPair]
      match j, ih with
      | 0, _ =>
        simp [hashLoop, xorSweep, Nat.and_comm, Nat.xor_zero, Nat.zero_xor]
      | j + 1, ih =>
        rw [ih (j + 1) (by omega) (by omega) _ _]
        simp only [xorSweep, Prod.mk.injEq]
        refine ⟨?_, ?_⟩ <;>
          · rw [mask_xor_mask, Nat.xor_assoc]
            exact congrArg (fun z => (_ ^^^ z) &&& _) (Nat.xor_comm _ _)

/-- If two character lists agree everywhere except position `p`, the XOR
accumulations differ exactly by the shifted XOR of the two codes at `p`,
and only when the loop actually reads position `p`: as a `str[j]` read
(first component; requires `0 < p ≤ j` with `j - p` even) or as a
`str[j-1]` read (second component; requires `p + 1 ≤ j` with `j - (p+1)`
even).  In particular position 0 of an odd-length string is never read. -/
theorem xorSweep_diff (u v : List Char) (len p : Nat)
    (hagree : ∀ i, i ≠ p → codeAt u i = codeAt v i) :
    ∀ j,
      ((xorSweep u len j).1 ^^^ (xorSweep v len j).1
        = if 0 < p ∧ p ≤ j ∧ (j - p) % 2 = 0
          then (codeAt u p ^^^ codeAt v p) <<< ((len - p) % 30) else 0)
      ∧ ((xorSweep u len j).2 ^^^ (xorSweep v len j).2
        = if p + 1 ≤ j ∧ (j - (p + 1)) % 2 = 0
          then (codeAt u p ^^^ codeAt v p) <<< ((p + 1) % 30) else 0) := by
  intro j
  induction j using Nat.strong_induction_on with
  | _ j ih =>
    match j with
    | 0 =>
      constructor
      · rw [if_neg (by omega)]; simp [xorSweep]
      · rw [if_neg (by omega)]; simp [xorSweep]
    | 1 =>
      constructor
      · by_cases hp : p = 1
        · subst hp
          rw [if_pos (by omega)]
          simp only [xorSweep]
          rw [← shiftLeft_xor_distrib]
        · rw [if_neg (by omega)]
          simp only [xorSweep]
          rw [hagree 1 (by omega), Nat.xor_self]
      · by_cases hp : p = 0
        · subst hp
          rw [if_pos (by omega)]
          simp only [xorSweep]
          rw [← shiftLeft_xor_distrib]
        · rw [if_neg (by omega)]
          simp only [xorSweep]
          rw [hagree 0 (by omega), Nat.xor_self]
    | j + 2 =>
      have ihj := ih j (by omega)
      have hre1 : (xorSweep u len (j + 2)).1 ^^^ (xorSweep v len (j + 2)).1
          = ((xorSweep u len j).1 ^^^ (xorSweep v len j).1)
            ^^^ (codeAt u (j + 2) <<< ((len - (j + 2)) % 30)
                 ^^^ codeAt v (j + 2) <<< ((len - (j + 2)) % 30)) := by
        simp only [xorSweep]
        generalize (xorSweep u len j).1 = xu
        generalize (xorSweep v len j).1 = xv
        generalize codeAt u (j + 2) <<< ((len - (j + 2)) % 30) = du
        generalize codeAt v (j + 2) <<< ((len - (j + 2)) % 30) = dv
        apply Nat.eq_of_testBit_eq
        intro i
        simp only [Nat.testBit_xor]
        cases xu.testBit i <;> cases xv.testBit i <;> cases du.testBit i <;>
          cases dv.testBit i <;> rfl
      have hre2 : (xorSweep u len (j + 2)).2 ^^^ (xorSweep v len (j + 2)).2
          = ((xorSweep u len j).2 ^^^ (xorSweep v len j).2)
            ^^^ (codeAt u (j + 1) <<< ((j + 2) % 30)
                 ^^^ codeAt v (j + 1) <<< ((j + 2) % 30)) := by
        simp only [xorSweep]
        generalize (xorSweep u len j).2 = xu
        generalize (xorSweep v len j).2 = xv
        generalize codeAt u (j + 1) <<< ((j + 2) % 30) = du
        generalize codeAt v (j + 1) <<< ((j + 2) % 30) = dv
        apply Nat.eq_of_testBit_eq
        intro i
        simp only [Nat.testBit_xor]
        cases xu.testBit i <;> cases xv.testBit i <;> cases du.testBit i <;>
          cases dv.testBit i <;> rfl
      constructor
      · rw [hre1, ihj.1]
        by_cases hp : p = j + 2
        · subst hp
          rw [if_neg (by omega), if_pos (by omega), Nat.zero_xor, ← shiftLeft_xor_distrib]
        · rw [hagree (j + 2) (by omega), Nat.xor_self, Nat.xor_zero]
          by_cases hc : 0 < p ∧ p ≤ j ∧ (j - p) % 2 = 0
          · rw [if_pos hc, if_pos (by omega)]
          · rw [if_neg hc, if_neg (by omega)]
      · rw [hre2, ihj.2]
        by_cases hp : p = j + 1
        · subst hp
          rw [if_neg (by omega), if_pos (by omega), Nat.zero_xor, ← shiftLeft_xor_distrib]
        · rw [hagree (j + 1) (by omega), Nat.xor_self, Nat.xor_zero]
          by_cases hc : p + 1 ≤ j ∧ (j - (p + 1)) % 2 = 0
          · rw [if_pos hc, if_pos (by omega)]
          · rw [if_neg hc, if_neg (by omega)]

/-- C4 (counterexample): the claim "every single-byte change to a serialized
payload string changes the digest" is false on the code, at two explicit
inputs.  First, `"a=1"` and `"b=1"` (each the serialization of a payload,
differing only in byte 0) hash identically: for odd-length strings the loop
never reads position 0.  Second, two 27-character strings differing only at
position 2 (`'!'` vs `'a'`, codes 0x21 and 0x61) hash identically although
position 2 is read: the changed bit is shifted by 25 places and dies under
the `0x7FFFFFFF` mask. -/
theorem hash_single_byte_collision_counterexample :
    (calculate_hash "a=1" = calculate_hash "b=1"
      ∧ ("b=1").data = ("a=1").data.set 0 'b'
      ∧ ("a=1").data.length = ("b=1").data.length ∧ 'a' ≠ 'b'
      ∧ encode_data [("a", "1")] = "a=1" ∧ encode_data [("b", "1")] = "b=1")
    ∧ (calculate_hash (String.mk ('c' :: 'c' :: '!' :: List.replicate 24 'c'))
         = calculate_hash (String.mk ('c' :: 'c' :: 'a' :: List.replicate 24 'c'))
      ∧ ('c' :: 'c' :: 'a' :: List.replicate 24 'c')
         = ('c' :: 'c' :: '!' :: List.replicate 24 'c').set 2 'a'
      ∧ '!' ≠ 'a') := by
  constructor
  · refine ⟨by decide, by decide, by decide, by decide, by decide, by decide⟩
  · refine ⟨by decide, by decide, by decide⟩

/-- C4 (amended): flipping a single byte of the serialized payload string
does change the digest, provided the flipped position is actually read by
the hash loop (as a `str[j]` read: `0 < p ≤ len-1` with `len-1-p` even, or
as a `str[j-1]` read: `p+1 ≤ len-1` with `len-1-(p+1)` even) and the XOR of
the old and new character codes, shifted by that position's shift amount,
is nonzero under the `0x7FFFFFFF` mask. -/
theorem hash_single_byte_avalanche_amended (u v : String) (p : Nat)
    (hlen : v.data.length = u.data.length)
    (hagree : ∀ i, i ≠ p → codeAt u.data i = codeAt v.data i)
    (hread :
      (0 < p ∧ p ≤ u.data.length - 1 ∧ ((u.data.length - 1) - p) % 2 = 0
        ∧ ((codeAt u.data p ^^^ codeAt v.data p) <<< ((u.data.length - p) % 30))
            &&& 0x7FFFFFFF ≠ 0)
      ∨ (p + 1 ≤ u.data.length - 1 ∧ ((u.data.length - 1) - (p + 1)) % 2 = 0
        ∧ ((codeAt u.data p ^^^ codeAt v.data p) <<< ((p + 1) % 30))
            &&& 0x7FFFFFFF ≠ 0)) :
    calculate_hash u ≠ calculate_hash v := by
  intro heq
  set len := u.data.length with hlendef
  have hj0 : 0 < len - 1 := by rcases hread with ⟨h1, h2, _⟩ | ⟨h1, h2, _⟩ <;> omega
  have hu : calculate_hash u = natToHex
      (((0x15051505 ^^^ (xorSweep u.data len (len - 1)).1) &&& 0x7FFFFFFF)
       + ((0x15051505 ^^^ (xorSweep u.data len (len - 1)).2) &&& 0x7FFFFFFF)) := by
    simp only [calculate_hash]
    rw [hashLoop_characterization u.data len (len - 1) hj0]
  have hv : calculate_hash v = natToHex
      (((0x15051505 ^^^ (xorSweep v.data len (len - 1)).1) &&& 0x7FFFFFFF)
       + ((0x15051505 ^^^ (xorSweep v.data len (len - 1)).2) &&& 0x7FFFFFFF)) := by
    simp only [calculate_hash]
    rw [hlen, hashLoop_characterization v.data len (len - 1) hj0]
  rw [hu, hv] at heq
  have hsum := natToHex_injective heq
  have hdiff := xorSweep_diff u.data v.data len p hagree (len - 1)
  rcases hread with ⟨hp1, hp2, hp3, hmask⟩ | ⟨hp1, hp2, hmask⟩
  · -- the changed byte is a str[j] read: second components agree,
    -- first components differ under the mask
    have h2 : (xorSweep u.data len (len - 1)).2 = (xorSweep v.data len (len - 1)).2 := by
      have := hdiff.2
      rw [if_neg (by omega)] at this
      exact Nat.xor_eq_zero.mp this
    have h1 : (xorSweep u.data len (len - 1)).1 ^^^ (xorSweep v.data len (len - 1)).1
        = (codeAt u.data p ^^^ codeAt v.data p) <<< ((len - p) % 30) := by
      have := hdiff.1
      rwa [if_pos (by omega)] at this
    rw [h2] at hsum
    have hA := Nat.add_right_cancel hsum
    exact xor_ne_of_xor_and_ne_zero (x := 0x15051505 ^^^ (xorSweep u.data len (len - 1)).1)
      (y := 0x15051505 ^^^ (xorSweep v.data len (len - 1)).1)
      (by rw [xor_xor_cancel_left, h1]; exact hmask) hA |>.elim
  · -- the changed byte is a str[j-1] read: first components agree,
    -- second components differ under the mask
    have h1 : (xorSweep u.data len (len - 1)).1 = (xorSweep v.data len (len - 1)).1 := by
      have := hdiff.1
      rw [if_neg (by omega)] at this
      exact Nat.xor_eq_zero.mp this
    have h2 : (xorSweep u.data len (len - 1)).2 ^^^ (xorSweep v.data len (len - 1)).2
        = (codeAt u.data p ^^^ codeAt v.data p) <<< ((p + 1) % 30) := by
      have := hdiff.2
      rwa [if_pos (by omega)] at this
    rw [h1] at hsum
    have hB := Nat.add_left_cancel hsum
    exact xor_ne_of_xor_and_ne_zero (x := 0x15051505 ^^^ (xorSweep u.data len (len - 1)).2)
      (y := 0x15051505 ^^^ (xorSweep v.data len (len - 1)).2)
      (by rw [xor_xor_cancel_left, h2]; exact hmask) hB |>.elim

/-- C4 (witness): the amended avalanche theorem applied at the concrete
strings "ab" / "ac" (position 1 flipped, read by the loop, mask survives). -/
theorem hash_single_byte_avalanche_amended_witness :
    calculate_hash "ab" ≠ calculate_hash "ac" := by
  apply hash_single_byte_avalanche_amended "ab" "ac" 1 (by decide)
  · intro i hi
    match i with
    | 0 => rfl
    | 1 => exact absurd rfl hi
    | n + 2 => rfl
  · exact Or.inl (by decide)

/-! ## Claim C7: JSON responses and `_extract_credited`
    (src/weread_bot/session.py lines 449-475)

JSON values are modelled with integer numerics (JSON integers are exact;
floats do not occur in the claims).  Python's `isinstance(v, (int, float))`
also accepts booleans (`bool` is a subclass of `int`), with
`int(True) = 1`, which the model reproduces. -/

inductive JsonValue where
  | null : JsonValue
  | bool (b : Bool) : JsonValue
  | num (n : Int) : JsonValue
  | str (s : String) : JsonValue
  | arr (xs : List JsonValue) : JsonValue
  | obj (fields : List (String × JsonValue)) : JsonValue

/-- `isinstance(v, (int, float))` followed by `int(v)`. -/
def numVal : JsonValue → Option Int
  | .num n => some n
  | .bool b => some (if b then 1 else 0)
  | _ => none

/-- The priority key list of `_extract_credited`, in source order. -/
def creditKeys : List String :=
  ["addTime", "add_time", "readTime", "read_time", "time",
   "duration", "inc", "increase", "added", "addedTime"]

/-- `k in obj` plus `obj[k]`, on the insertion-ordered field list. -/
def pyDictGet (fields : List (String × JsonValue)) (k : String) : Option JsonValue :=
  (fields.find? (fun e => e.1 == k)).map (fun e => e.2)

/-- The `for k in keys: if k in obj and isinstance(obj[k], (int, float)):
return int(obj[k])` scan: first priority key present with a numeric value. -/
def objPriorityHit (fields : List (String × JsonValue)) : Option Int :=
  creditKeys.findSome? (fun k => (pyDictGet fields k).bind numVal)

mutual

/-- `_extract_credited`: non-dicts yield None; on a dict, scan the priority
keys first, then recurse into dict-typed values in insertion order, first
non-None result wins. -/
def extract_credited : JsonValue → Option Int
  | .obj fields =>
    match objPriorityHit fields with
    | some n => some n
    | none => descendValues fields
  | _ => none

/-- The `for v in obj.values(): if isinstance(v, dict): ...` loop. -/
def descendValues : List (String × JsonValue) → Option Int
  | [] => none
  | (_, v) :: rest =>
    match v with
    | .obj f =>
      match extract_credited (.obj f) with
      | some n => some n
      | none => descendValues rest
    | _ => descendValues rest

end

/-- `credited = extracted if extracted is not None else int(rt)` (the `rt`
sent in the request is always an int; the unreachable non-numeric-`rt`
fallback to 0 is not modelled). -/
def creditedOf (resp : JsonValue) (rt : Int) : Int :=
  (extract_credited resp).getD rt

/-! ### The claim's search, written from the specification's words -/

mutual

/-- The depth-first preorder list of objects visited by the claimed search:
each object first, then the objects nested in its values, in order. -/
def specDfsObjects : JsonValue → List (List (String × JsonValue))
  | .obj fields => fields :: specDfsChildren fields
  | _ => []

def specDfsChildren : List (String × JsonValue) → List (List (String × JsonValue))
  | [] => []
  | (_, v) :: rest => specDfsObjects v ++ specDfsChildren rest

end

/-- The claim's literal search: the value of the first priority key *present*
(no numeric condition) along the depth-first order. -/
def specFirstFoundKey (v : JsonValue) : Option (String × JsonValue) :=
  (specDfsObjects v).findSome?
    (fun fields => creditKeys.findSome?
      (fun k => (pyDictGet fields k).map (fun val => (k, val))))

/-- The amended search: the first priority key present *with a numeric
value* along the same depth-first order. -/
def specFirstNumeric (v : JsonValue) : Option Int :=
  (specDfsObjects v).findSome? objPriorityHit

theorem descendValues_eq_spec :
    ∀ fs : List (String × JsonValue),
      (∀ v ∈ fs.map Prod.snd, extract_credited v = specFirstNumeric v) →
      descendValues fs = (specDfsChildren fs).findSome? objPriorityHit := by
  intro fs
  induction fs with
  | nil => intro _; simp [descendValues, specDfsChildren]
  | cons e rest ih =>
    intro hmem
    obtain ⟨k, v⟩ := e
    have hv : extract_credited v = specFirstNumeric v := hmem v (by simp)
    have hrest := ih (fun w hw => hmem w (by simp [hw]))
    match v with
    | .null | .bool _ | .num _ | .str _ | .arr _ =>
      simp only [descendValues, specDfsChildren, specDfsObjects,
        List.nil_append, hrest]
    | .obj f =>
      simp only [descendValues, specDfsChildren, specDfsObjects,
        List.findSome?_append, hrest]
      rw [hv]
      simp only [specFirstNumeric, specDfsObjects]
      cases List.findSome? objPriorityHit (f :: specDfsChildren f) <;> rfl

theorem extract_credited_eq_specFirstNumeric (v : JsonValue) :
    extract_credited v = specFirstNumeric v := by
  have H : ∀ n (w : JsonValue), sizeOf w ≤ n → extract_credited w = specFirstNumeric w := by
    intro n
    induction n with
    | zero =>
      intro w h
      exfalso
      cases w <;> simp_all
    | succ n ih =>
      intro w hle
      match w with
      | .null | .bool _ | .num _ | .str _ | .arr _ => rfl
      | .obj fields =>
        have hmem : ∀ x ∈ fields.map Prod.snd, extract_credited x = specFirstNumeric x := by
          intro x hx
          apply ih
          obtain ⟨a, ha, hae⟩ := List.mem_map.mp hx
          have h1 : sizeOf a < sizeOf fields := List.sizeOf_lt_of_mem ha
          obtain ⟨k, x'⟩ := a
          have hae' : x' = x := hae
          subst hae'
          have h4 : sizeOf x' < sizeOf (k, x') := by simp
          have h2 : sizeOf (JsonValue.obj fields) = 1 + sizeOf fields := by simp
          omega
        show (match objPriorityHit fields with
              | some m => some m
              | none => descendValues fields) = specFirstNumeric (.obj fields)
        rw [descendValues_eq_spec fields hmem]
        simp only [specFirstNumeric, specDfsObjects, List.findSome?_cons]
        cases objPriorityHit fields <;> rfl
  exact H (sizeOf v) v (Nat.le_refl _)

/-- C7 (counterexample): the claim "the credited duration is the value of the
first key found by the depth-first priority search" is false on the code at
the response `{"addTime": "x", "time": 5}`: the first key found is `addTime`
(a string value), yet the code credits 5 (the `time` value), because
`_extract_credited` skips keys whose values are not `int`/`float`. -/
theorem extract_credited_nonnumeric_counterexample :
    specFirstFoundKey (.obj [("addTime", .str "x"), ("time", .num 5)])
        = some ("addTime", .str "x")
      ∧ creditedOf (.obj [("addTime", .str "x"), ("time", .num 5)]) 7 = 5
      ∧ JsonValue.str "x" ≠ JsonValue.num 5 := by
  refine ⟨rfl, ?_, fun h => JsonValue.noConfusion h⟩
  simp [creditedOf, extract_credited, objPriorityHit, creditKeys, pyDictGet,
    numVal, List.findSome?]

/-- C7 (amended): the credited duration is the integer value of the first
key found by the depth-first search over nested objects that checks, at
each object, the priority keys `addTime, add_time, readTime, read_time,
time, duration, inc, increase, added, addedTime` in that order before
descending into sub-objects, *counting a key as found only when its value
is numeric* (a JSON number, or a boolean — `bool` being a Python `int` —
coerced to an integer); if no such numeric key is found anywhere, the
credited duration equals the `rt` value that was sent in the request. -/
theorem extract_credited_matches_numeric_dfs (resp : JsonValue) (rt : Int) :
    creditedOf resp rt
      = match specFirstNumeric resp with
        | some n => n
        | none => rt := by
  simp only [creditedOf, extract_credited_eq_specFirstNumeric]
  cases specFirstNumeric resp <;> rfl

/-! ## Claim C3: `CurlParser.parse_curl_command` (utils.py lines 33-77)

The three regular expressions of the source are embedded as deterministic
scanners.  Each pattern is anchored at a position and the scan advances one
character on failure (`re.findall` / `re.search` semantics); inside one
pattern, every quantifier is determinate: a negated character class run
followed by a literal can only stop at the first excluded character, and
the non-greedy `(.*?)\1` stops at the first occurrence of the opening
quote character — even when that quote is preceded by a backslash. -/

def squote : Char := Char.ofNat 39

def isQuoteChar (c : Char) : Bool := c == '"' || c == squote

/-- One anchored attempt of `-H ['\"]([^:]+): ([^'\"]+)['\"]`; returns the
two groups and the remainder after the match. -/
def matchHeaderAt : List Char → Option ((String × String) × List Char)
  | '-' :: 'H' :: ' ' :: q :: rest =>
    if isQuoteChar q then
      let key := rest.takeWhile (fun c => !(c == ':'))
      if key.isEmpty then none
      else
        match rest.dropWhile (fun c => !(c == ':')) with
        | ':' :: ' ' :: r2 =>
          let val := r2.takeWhile (fun c => !(isQuoteChar c))
          if val.isEmpty then none
          else
            match r2.dropWhile (fun c => !(isQuoteChar c)) with
            | c :: r4 =>
              if isQuoteChar c then some ((String.mk key, String.mk val), r4) else none
            | [] => none
        | _ => none
    else none
  | _ => none

/-- `re.findall` for the header pattern: scan left to right, resuming after
each match; fuel `length + 1` suffices since every step consumes input. -/
def scanHeaders : Nat → List Char → List (String × String)
  | 0, _ => []
  | fuel + 1, cs =>
    match matchHeaderAt cs with
    | some (kv, rest) => kv :: scanHeaders fuel rest
    | none =>
      match cs with
      | [] => []
      | _ :: t => scanHeaders fuel t

/-- One anchored attempt of `-b ['\"]([^'\"]+)['\"]`. -/
def matchCookieBAt : List Char → Option String
  | '-' :: 'b' :: ' ' :: q :: rest =>
    if isQuoteChar q then
      let val := rest.takeWhile (fun c => !(isQuoteChar c))
      if val.isEmpty then none
      else
        match rest.dropWhile (fun c => !(isQuoteChar c)) with
        | c :: _ => if isQuoteChar c then some (String.mk val) else none
        | [] => none
    else none
  | _ => none

def searchCookieB : Nat → List Char → Option String
  | 0, _ => none
  | fuel + 1, cs =>
    match matchCookieBAt cs with
    | some v => some v
    | none =>
      match cs with
      | [] => none
      | _ :: t => searchCookieB fuel t

/-- Python regex `\s` (ASCII portion). -/
def isPyWs (c : Char) : Bool :=
  c == ' ' || c == '\t' || c == '\n' || c.toNat == 13 || c.toNat == 12 || c.toNat == 11

/-- One anchored attempt of `(?:--data-raw|--data|-d)\s+(['\"])(.*?)\1`
(DOTALL): the alternatives are tried in source order; `\s+` is a maximal
nonempty whitespace run; the non-greedy body stops at the first occurrence
of the opening quote, which must exist. -/
def matchDataAt (cs : List Char) : Option (Char × List Char) :=
  let afterLit : Option (List Char) :=
    if ("--data-raw".data).isPrefixOf cs then some (cs.drop 10)
    else if ("--data".data).isPrefixOf cs then some (cs.drop 6)
    else if ("-d".data).isPrefixOf cs then some (cs.drop 2)
    else none
  match afterLit with
  | none => none
  | some rest =>
    let ws := rest.takeWhile isPyWs
    if ws.isEmpty then none
    else
      match rest.dropWhile isPyWs with
      | q :: r2 =>
        if isQuoteChar q then
          let body := r2.takeWhile (fun c => !(c == q))
          match r2.dropWhile (fun c => !(c == q)) with
          | _ :: _ => some (q, body)
          | [] => none
        else none
      | [] => none

def searchData : Nat → List Char → Option (Char × List Char)
  | 0, _ => none
  | fuel + 1, cs =>
    match matchDataAt cs with
    | some r => some r
    | none =>
      match cs with
      | [] => none
      | _ :: t => searchData fuel t

/-- Python `str.replace(r'\"', '"')`: left-to-right, non-overlapping. -/
def replaceEscapedQuotes : List Char → List Char
  | '\\' :: '"' :: rest => '"' :: replaceEscapedQuotes rest
  | c :: rest => c :: replaceEscapedQuotes rest
  | [] => []

/-- Python `str.strip()` (ASCII whitespace portion). -/
def stripChars (cs : List Char) : List Char :=
  ((cs.dropWhile isPyWs).reverse.dropWhile isPyWs).reverse

/-- Python `str.lower()` (ASCII portion; header names here are ASCII). -/
def lowerStr (s : String) : String :=
  String.mk (s.data.map (fun c =>
    if 'A' ≤ c && c ≤ 'Z' then Char.ofNat (c.toNat + 32) else c))

/-- Python dict assignment `d[k] = v`: overwrite in place or append. -/
def assocSet (l : List (String × String)) (k v : String) : List (String × String) :=
  if l.any (fun e => e.1 == k) then
    l.map (fun e => if e.1 == k then (k, v) else e)
  else l ++ [(k, v)]

def findSplit (sep : List Char) : List Char → Option (List Char × List Char)
  | [] => none
  | c :: rest =>
    if sep.isPrefixOf (c :: rest) then some ([], (c :: rest).drop sep.length)
    else (findSplit sep rest).map (fun p => (c :: p.1, p.2))

/-- Python `str.split(sep)` for a non-empty separator. -/
def splitOnSeq : Nat → List Char → List Char → List (List Char)
  | 0, _, cs => [cs]
  | fuel + 1, sep, cs =>
    match findSplit sep cs with
    | some (pre, post) => pre :: splitOnSeq fuel sep post
    | none => [cs]

/-- The cookie-string loop: split on `"; "`, then on the first `"="`,
stripping both sides; pairs without `"="` are skipped. -/
def parseCookies (s : String) : List (String × String) :=
  if s.isEmpty then []
  else
    (splitOnSeq (s.data.length + 1) ("; ".data) s.data).foldl
      (fun acc item =>
        if item.any (fun c => c == '=') then
          let k := item.takeWhile (fun c => !(c == '='))
          let v := (item.dropWhile (fun c => !(c == '='))).drop 1
          assocSet acc (String.mk (stripChars k)) (String.mk (stripChars v))
        else acc)
      []

/-! ### `json.loads` (the fragment exercised by the parser)

A recursive-descent parser for JSON objects, arrays, strings (with the
standard escapes), integers, `true`/`false`/`null`.  Numbers are restricted
to integers (floats do not occur in the inputs under verification).  Any
malformed input — in particular a backslash where a key is expected, or
trailing garbage — yields `none`, modelling `json.JSONDecodeError`. -/

def isJsonWs (c : Char) : Bool :=
  c == ' ' || c == '\t' || c == '\n' || c.toNat == 13

def skipJsonWs (cs : List Char) : List Char := cs.dropWhile isJsonWs

def isDigitChar (c : Char) : Bool := '0' ≤ c && c ≤ '9'

def digitsToNat (ds : List Char) : Nat :=
  ds.foldl (fun a c => a * 10 + (c.toNat - 48)) 0

/-- Parse one JSON string body after the opening quote; returns the decoded
characters and the remainder after the closing quote. -/
def parseJsonString : Nat → List Char → Option (List Char × List Char)
  | 0, _ => none
  | _, [] => none
  | fuel + 1, c :: rest =>
    if c == '"' then some ([], rest)
    else if c == '\\' then
      match rest with
      | [] => none
      | e :: rest2 =>
        let dec : Option Char :=
          if e == '"' then some '"'
          else if e == '\\' then some '\\'
          else if e == '/' then some '/'
          else if e == 'b' then some (Char.ofNat 8)
          else if e == 'f' then some (Char.ofNat 12)
          else if e == 'n' then some '\n'
          else if e == 'r' then some (Char.ofNat 13)
          else if e == 't' then some '\t'
          else none
        match dec with
        | none => none
        | some d =>
          (parseJsonString fuel rest2).map (fun p => (d :: p.1, p.2))
    else if c.toNat < 0x20 then none
    else (parseJsonString fuel rest).map (fun p => (c :: p.1, p.2))

mutual

def parseJsonValue : Nat → List Char → Option (JsonValue × List Char)
  | 0, _ => none
  | fuel + 1, cs =>
    match skipJsonWs cs with
    | [] => none
    | c :: rest =>
      if c == '"' then
        (parseJsonString (rest.length + 1) rest).map
          (fun p => (JsonValue.str (String.mk p.1), p.2))
      else if c == '{' then parseJsonObject fuel rest
      else if c == '[' then parseJsonArray fuel rest
      else if c == 't' then
        if ("rue".data).isPrefixOf rest then some (.bool true, rest.drop 3) else none
      else if c == 'f' then
        if ("alse".data).isPrefixOf rest then some (.bool false, rest.drop 4) else none
      else if c == 'n' then
        if ("ull".data).isPrefixOf rest then some (.null, rest.drop 3) else none
      else if c == '-' then
        let ds := rest.takeWhile isDigitChar
        if ds.isEmpty then none
        else some (.num (-(digitsToNat ds : Int)), rest.dropWhile isDigitChar)
      else if isDigitChar c then
        let ds := (c :: rest).takeWhile isDigitChar
        some (.num (digitsToNat ds : Int), (c :: rest).dropWhile isDigitChar)
      else none

/-- After the opening `{`. -/
def parseJsonObject : Nat → List Char → Option (JsonValue × List Char)
  | 0, _ => none
  | fuel + 1, cs =>
    match skipJsonWs cs with
    | [] => none
    | c :: rest =>
      if c == '}' then some (.obj [], rest)
      else if c == '"' then
        match parseJsonString (rest.length + 1) rest with
        | none => none
        | some (key, r2) =>
          match skipJsonWs r2 with
          | ':' :: r3 =>
            match parseJsonValue fuel r3 with
            | none => none
            | some (v, r4) =>
              parseJsonMembers fuel r4 [(String.mk key, v)]
          | _ => none
      else none

def parseJsonMembers : Nat → List Char → List (String × JsonValue) →
    Option (JsonValue × List Char)
  | 0, _, _ => none
  | fuel + 1, cs, acc =>
    match skipJsonWs cs with
    | '}' :: rest => some (.obj acc.reverse, rest)
    | ',' :: rest =>
      match skipJsonWs rest with
      | '"' :: r1 =>
        match parseJsonString (r1.length + 1) r1 with
        | none => none
        | some (key, r2) =>
          match skipJsonWs r2 with
          | ':' :: r3 =>
            match parseJsonValue fuel r3 with
            | none => none
            | some (v, r4) => parseJsonMembers fuel r4 ((String.mk key, v) :: acc)
          | _ => none
      | _ => none
    | _ => none

/-- After the opening `[`. -/
def parseJsonArray : Nat → List Char → Option (JsonValue × List Char)
  | 0, _ => none
  | fuel + 1, cs =>
    match skipJsonWs cs with
    | ']' :: rest => some (.arr [], rest)
    | _ =>
      match parseJsonValue fuel cs with
      | none => none
      | some (v, r1) => parseJsonElems fuel r1 [v]

def parseJsonElems : Nat → List Char → List JsonValue → Option (JsonValue × List Char)
  | 0, _, _ => none
  | fuel + 1, cs, acc =>
    match skipJsonWs cs with
    | ']' :: rest => some (.arr acc.reverse, rest)
    | ',' :: rest =>
      match parseJsonValue fuel rest with
      | none => none
      | some (v, r1) => parseJsonElems fuel r1 (v :: acc)
    | _ => none

end

def jsonLoads (s : String) : Option JsonValue :=
  match parseJsonValue (s.data.length + 1) s.data with
  | none => none
  | some (v, rest) => if (skipJsonWs rest).isEmpty then some v else none

/-- `CurlParser.parse_curl_command` (utils.py lines 33-77): header dict from
the `-H` findall (later duplicates overwrite), cookies from `-b` or the
(case-insensitively) excluded `Cookie` header, and the JSON body from the
first `--data-raw`/`--data`/`-d` quoted argument — un-escaping `\"` for
double-quoted bodies, stripping, and yielding `{}` on decode failure. -/
def parse_curl_command (curl : String) :
    List (String × String) × List (String × String) × JsonValue :=
  let cs := curl.data
  let headersTemp := (scanHeaders (cs.length + 1) cs).foldl
    (fun acc kv => assocSet acc kv.1 kv.2) []
  let cookieHeader :=
    (((headersTemp.find? (fun e => lowerStr e.1 == "cookie")).map (fun e => e.2)).getD "")
  let cookieString := (searchCookieB (cs.length + 1) cs).getD cookieHeader
  let cookies := parseCookies cookieString
  let headers := headersTemp.filter (fun e => !(lowerStr e.1 == "cookie"))
  let requestData :=
    match searchData (cs.length + 1) cs with
    | none => JsonValue.obj []
    | some (q, body) =>
      let body1 := if q == '"' then replaceEscapedQuotes body else body
      let bodyStr := String.mk (stripChars body1)
      match jsonLoads bodyStr with
      | some v => v
      | none => JsonValue.obj []
  (headers, cookies, requestData)

def lbrace : Char := Char.ofNat 123

def rbrace : Char := Char.ofNat 125

def bslash : Char := Char.ofNat 92

/-- The C3 input string
`-H "X-Foo: bar" -b "a=1; b=2" --data-raw "{\"x\":1}"`
(the body is double-quoted with backslash-escaped inner quotes). -/
def c3input : String :=
  "-H \"X-Foo: bar\" -b \"a=1; b=2\" --data-raw \"" ++
  String.mk [lbrace, bslash, '"', 'x', bslash, '"', ':', '1', rbrace, '"']

/-- C3: evaluating the parser at the claimed input.  Headers and cookies come
out as the claim states, but the body is the *empty* object, not `{x: 1}`:
the non-greedy `(.*?)\1` stops at the first `"` even though it is escaped,
so the extracted body text is `{\`, which fails JSON decoding.  The second
conjunct shows that the intended body text `{"x":1}` is well-formed and
decodes to `{x: 1}` — the loss happens in the extraction, contradicting both
the spec's round-trip test and the code's own un-escaping step. -/
theorem parse_curl_command_escaped_quote_eval :
    parse_curl_command c3input
      = ([("X-Foo", "bar")], [("a", "1"), ("b", "2")], JsonValue.obj [])
    ∧ jsonLoads (String.mk [lbrace, '"', 'x', '"', ':', '1', rbrace])
      = some (JsonValue.obj [("x", JsonValue.num 1)]) := by
  exact ⟨rfl, rfl⟩

/-! ## Claims C2, C5, C10: the read-request state machine
    (`WeReadSessionManager._simulate_reading_request` and
    `_try_s_variants`, session.py lines 315-660)

The per-session mutable fields that these claims depend on are collected in
`SessionState`.  Each HTTP POST consumes one oracle value (indexed by
`postCount`): `accepted` is a response whose `succ`/`success` is truthy,
`rejected` a well-formed non-accepting response, `errored` an exception
raised by the post.  The payload hash computations are abstracted as the
string parameters `calcS` (the `calculated_s` of line 362) and
`variantBase` (the base digest recomputed inside `_try_s_variants`);
position, identity, timestamp and `sg` bookkeeping, the `synckey` fix-up
and the cookie refresh touch no modelled field and are elided.  Each call
also returns the list of `s` values carried by the read requests it posted,
in order. -/

inductive PostResult where
  | accepted : PostResult
  | rejected : PostResult
  | errored : PostResult
deriving DecidableEq

structure SessionState where
  consecutiveFailures : Nat
  sVariantsTried : Bool
  initialS : Option String
  dataS : Option String
  postCount : Nat
deriving DecidableEq

inductive ReadOutcome where
  | success : ReadOutcome
  | failure : ReadOutcome
  | fatal : ReadOutcome
deriving DecidableEq

/-- The candidate list of `_try_s_variants` (lines 587-600): the fresh base
digest; when it is longer than 8 characters also its last 8, its first 8,
and the 32-bit truncation re-rendered as hex (skipped if `int(base, 16)`
raises). -/
def hexDigitValOpt (c : Char) : Option Nat :=
  if '0' ≤ c && c ≤ '9' then some (c.toNat - 48)
  else if 'a' ≤ c && c ≤ 'f' then some (c.toNat - 87)
  else if 'A' ≤ c && c ≤ 'F' then some (c.toNat - 55)
  else none

def hexToNatOpt (s : String) : Option Nat :=
  if s.data.isEmpty then none
  else s.data.foldl
    (fun acc c => acc.bind (fun a => (hexDigitValOpt c).map (fun d => a * 16 + d)))
    (some 0)

def sCandidates (base : String) : List String :=
  [base] ++
    (if base.length > 8 then
      [String.mk (base.data.drop (base.length - 8)), String.mk (base.data.take 8)] ++
        (match hexToNatOpt base with
         | some v => [natToHex (v &&& 0xFFFFFFFF)]
         | none => [])
    else [])

/-- The `for s_variant in candidates:` loop.  Per iteration the old payload
`s` is saved, the candidate is installed and posted; the `finally:` block
restores the old `s` on every path (acceptance, rejection, exception)
before the loop returns or continues.  Returns (accepted?, new state,
`s` values posted). -/
def tryCandidateLoop (oracle : Nat → PostResult) :
    List String → SessionState → Bool × SessionState × List String
  | [], st => (false, st, [])
  | c :: rest, st =>
    let oldS := st.dataS
    let stSent : SessionState :=
      { st with dataS := some c, postCount := st.postCount + 1 }
    let res := oracle st.postCount
    let stRestored : SessionState := { stSent with dataS := oldS }
    match res with
    | .accepted => (true, { stRestored with consecutiveFailures := 0 }, [c])
    | _ =>
      let r := tryCandidateLoop oracle rest stRestored
      (r.1, r.2.1, c :: r.2.2)

/-- `_try_s_variants` (lines 579-660): a one-shot guard
(`_s_variants_tried`), then the candidate loop. -/
def trySVariants (variantBase : String) (oracle : Nat → PostResult)
    (st : SessionState) : Bool × SessionState × List String :=
  if st.sVariantsTried then (false, st, [])
  else tryCandidateLoop oracle (sCandidates variantBase) { st with sVariantsTried := true }

/-- Lines 558-572: after the escalation rungs, raise `FatalSessionError`
when `_consecutive_failures >= 3`, otherwise refresh the cookie (no modelled
field) and report one failed read. -/
def finishReject (st : SessionState) (sent : List String) :
    ReadOutcome × SessionState × List String :=
  if st.consecutiveFailures ≥ 3 then (.fatal, st, sent)
  else (.failure, st, sent)

/-- Lines 548-572: the `== 2` rung tries the `s` variants once, stopping at
the first acceptance; then the fatal test / cookie refresh. -/
def afterReject (variantBase : String) (oracle : Nat → PostResult)
    (st : SessionState) (sent : List String) :
    ReadOutcome × SessionState × List String :=
  if st.consecutiveFailures = 2 then
    let r := trySVariants variantBase oracle st
    if r.1 then (.success, r.2.1, sent ++ r.2.2)
    else finishReject r.2.1 (sent ++ r.2.2)
  else finishReject st sent

/-- Lines 408-572: install the computed `s` and post; on acceptance reset
the failure counter; on exception report a failed read (counter untouched);
on rejection increment the counter, try the form-encoded fallback when the
count is exactly 1 (lines 494-545, same payload `s`), then escalate. -/
def afterInitial (calcS variantBase : String) (oracle : Nat → PostResult)
    (st : SessionState) (sentAcc : List String) :
    ReadOutcome × SessionState × List String :=
  let st2 : SessionState := { st with dataS := some calcS }
  let res := oracle st2.postCount
  let st3 : SessionState := { st2 with postCount := st2.postCount + 1 }
  let sent2 := sentAcc ++ [calcS]
  match res with
  | .accepted => (.success, { st3 with consecutiveFailures := 0 }, sent2)
  | .errored => (.failure, st3, sent2)
  | .rejected =>
    let st4 : SessionState :=
      { st3 with consecutiveFailures := st3.consecutiveFailures + 1 }
    if st4.consecutiveFailures = 1 then
      let res2 := oracle st4.postCount
      let st5 : SessionState := { st4 with postCount := st4.postCount + 1 }
      let sent3 := sent2 ++ [calcS]
      match res2 with
      | .accepted => (.success, { st5 with consecutiveFailures := 0 }, sent3)
      | _ => afterReject variantBase oracle st5 sent3
    else afterReject variantBase oracle st4 sent2

/-- `_simulate_reading_request` (lines 315-577), restricted to the modelled
fields: pop the payload `s`; if a verbatim `s` was captured from the CURL
profile (`_initial_s_from_curl`, line 365 — never cleared), install it and
post first, returning success on acceptance (the captured `s` stays in the
payload); otherwise continue with the computed `s`. -/
def simulateReadingRequest (calcS variantBase : String)
    (oracle : Nat → PostResult) (st0 : SessionState) :
    ReadOutcome × SessionState × List String :=
  let st1 : SessionState := { st0 with dataS := none }
  match st1.initialS with
  | some s0 =>
    let stI : SessionState :=
      { st1 with dataS := some s0, postCount := st1.postCount + 1 }
    let res := oracle st1.postCount
    match res with
    | .accepted => (.success, { stI with consecutiveFailures := 0 }, [s0])
    | _ =>
      let r := afterInitial calcS variantBase oracle stI []
      (r.1, r.2.1, s0 :: r.2.2)
  | none => afterInitial calcS variantBase oracle st1 []

theorem tryCandidateLoop_preserve (o : Nat → PostResult) :
    ∀ (l : List String) (st : SessionState),
      (tryCandidateLoop o l st).2.1.dataS = st.dataS
      ∧ (tryCandidateLoop o l st).2.1.initialS = st.initialS := by
  intro l
  induction l with
  | nil => intro st; exact ⟨rfl, rfl⟩
  | cons c rest ih =>
    intro st
    simp only [tryCandidateLoop]
    cases o st.postCount <;> simp [ih]

theorem tryCandidateLoop_success_consec (o : Nat → PostResult) :
    ∀ (l : List String) (st : SessionState),
      (tryCandidateLoop o l st).1 = true →
      (tryCandidateLoop o l st).2.1.consecutiveFailures = 0 := by
  intro l
  induction l with
  | nil => intro st h; exact absurd h (by simp [tryCandidateLoop])
  | cons c rest ih =>
    intro st
    simp only [tryCandidateLoop]
    cases o st.postCount <;> simp <;> exact ih _

theorem tryCandidateLoop_allreject (o : Nat → PostResult)
    (hall : ∀ n, o n = .rejected) :
    ∀ (l : List String) (st : SessionState),
      (tryCandidateLoop o l st).1 = false
      ∧ (tryCandidateLoop o l st).2.1.consecutiveFailures = st.consecutiveFailures
      ∧ (tryCandidateLoop o l st).2.1.initialS = st.initialS := by
  intro l
  induction l with
  | nil => intro st; exact ⟨rfl, rfl, rfl⟩
  | cons c rest ih =>
    intro st
    simp only [tryCandidateLoop, hall]
    exact ih _

/-- C10: whenever `_try_s_variants` returns — a candidate accepted, every
candidate rejected, or a request raised — the payload's `s` field is exactly
what it was before the call (the per-iteration `finally:` restore). -/
theorem try_s_variants_restores_s (variantBase : String)
    (oracle : Nat → PostResult) (st : SessionState) :
    (trySVariants variantBase oracle st).2.1.dataS = st.dataS := by
  unfold trySVariants
  by_cases h : st.sVariantsTried
  · simp [h]
  · simp only [h, if_false]
    exact (tryCandidateLoop_preserve oracle (sCandidates variantBase) _).1

theorem trySVariants_initialS (b : String) (o : Nat → PostResult) (st : SessionState) :
    (trySVariants b o st).2.1.initialS = st.initialS := by
  unfold trySVariants
  by_cases h : st.sVariantsTried
  · simp [h]
  · simp only [h, if_false]
    exact (tryCandidateLoop_preserve o (sCandidates b) _).2

theorem trySVariants_success_consec (b : String) (o : Nat → PostResult)
    (st : SessionState) (h : (trySVariants b o st).1 = true) :
    (trySVariants b o st).2.1.consecutiveFailures = 0 := by
  unfold trySVariants at h ⊢
  by_cases ht : st.sVariantsTried
  · simp [ht] at h
  · simp only [ht, if_false] at h ⊢
    exact tryCandidateLoop_success_consec o _ _ h

theorem finishReject_not_success (st : SessionState) (sent : List String) :
    (finishReject st sent).1 ≠ .success := by
  unfold finishReject
  by_cases h : st.consecutiveFailures ≥ 3 <;> simp [h]

theorem finishReject_preserve (st : SessionState) (sent : List String) :
    (finishReject st sent).2.1 = st := by
  unfold finishReject
  by_cases h : st.consecutiveFailures ≥ 3 <;> simp [h]

theorem afterReject_initialS (b : String) (o : Nat → PostResult)
    (st : SessionState) (sent : List String) :
    (afterReject b o st sent).2.1.initialS = st.initialS := by
  unfold afterReject
  by_cases h2 : st.consecutiveFailures = 2
  · simp only [h2, if_true]
    by_cases hs : (trySVariants b o st).1
    · simp [hs, trySVariants_initialS]
    · simp [hs, finishReject_preserve, trySVariants_initialS]
  · simp [h2, finishReject_preserve]

theorem afterReject_success_consec (b : String) (o : Nat → PostResult)
    (st : SessionState) (sent : List String)
    (h : (afterReject b o st sent).1 = .success) :
    (afterReject b o st sent).2.1.consecutiveFailures = 0 := by
  unfold afterReject at h ⊢
  by_cases h2 : st.consecutiveFailures = 2
  · simp only [h2, if_true] at h ⊢
    by_cases hs : (trySVariants b o st).1
    · simp only [hs, if_true]
      exact trySVariants_success_consec b o st hs
    · simp only [hs, if_false] at h
      exact absurd h (finishReject_not_success _ _)
  · simp only [h2, if_false] at h
    exact absurd h (finishReject_not_success _ _)

theorem afterReject_allreject (b : String) (o : Nat → PostResult)
    (hall : ∀ n, o n = .rejected) (st : SessionState) (sent : List String) :
    (afterReject b o st sent).1
        = (if st.consecutiveFailures ≥ 3 then ReadOutcome.fatal else ReadOutcome.failure)
      ∧ (afterReject b o st sent).2.1.consecutiveFailures = st.consecutiveFailures
      ∧ (afterReject b o st sent).2.1.initialS = st.initialS := by
  have hvar : ∀ st' : SessionState,
      (trySVariants b o st').1 = false
      ∧ (trySVariants b o st').2.1.consecutiveFailures = st'.consecutiveFailures
      ∧ (trySVariants b o st').2.1.initialS = st'.initialS := by
    intro st'
    unfold trySVariants
    by_cases ht : st'.sVariantsTried
    · simp [ht]
    · simp only [ht, if_false]
      exact tryCandidateLoop_allreject o hall _ _
  unfold afterReject
  by_cases h2 : st.consecutiveFailures = 2
  · simp only [h2, if_true, (hvar st).1, if_false]
    unfold finishReject
    rw [(hvar st).2.1]
    simp [h2, (hvar st).2.1, (hvar st).2.2]
  · simp only [h2, if_false]
    unfold finishReject
    by_cases h3 : st.consecutiveFailures ≥ 3 <;> simp [h3]

theorem afterInitial_initialS (c b : String) (o : Nat → PostResult)
    (st : SessionState) (acc : List String) :
    (afterInitial c b o st acc).2.1.initialS = st.initialS := by
  simp only [afterInitial]
  cases h : o st.postCount with
  | accepted => simp [h]
  | errored => simp [h]
  | rejected =>
    simp only [h]
    by_cases h1 : st.consecutiveFailures + 1 = 1
    · simp only [h1, if_true]
      cases h2 : o (st.postCount + 1) with
      | accepted => simp [h2]
      | rejected => simp only [h2]; exact afterReject_initialS ..
      | errored => simp only [h2]; exact afterReject_initialS ..
    · simp only [h1, if_false]
      exact afterReject_initialS ..

theorem afterInitial_success_consec (c b : String) (o : Nat → PostResult)
    (st : SessionState) (acc : List String)
    (h : (afterInitial c b o st acc).1 = .success) :
    (afterInitial c b o st acc).2.1.consecutiveFailures = 0 := by
  simp only [afterInitial] at h ⊢
  cases hr : o st.postCount with
  | accepted => simp [hr]
  | errored => simp only [hr] at h; exact absurd h (by simp)
  | rejected =>
    simp only [hr] at h ⊢
    by_cases h1 : st.consecutiveFailures + 1 = 1
    · simp only [h1, if_true] at h ⊢
      cases h2 : o (st.postCount + 1) with
      | accepted => simp [h2]
      | rejected =>
        simp only [h2] at h ⊢
        exact afterReject_success_consec _ _ _ _ h
      | errored =>
        simp only [h2] at h ⊢
        exact afterReject_success_consec _ _ _ _ h
    · simp only [h1, if_false] at h ⊢
      exact afterReject_success_consec _ _ _ _ h

theorem afterInitial_allreject (c b : String) (o : Nat → PostResult)
    (hall : ∀ n, o n = .rejected) (st : SessionState) (acc : List String) :
    (afterInitial c b o st acc).1
        = (if st.consecutiveFailures + 1 ≥ 3 then ReadOutcome.fatal else ReadOutcome.failure)
      ∧ (afterInitial c b o st acc).2.1.consecutiveFailures = st.consecutiveFailures + 1
      ∧ (afterInitial c b o st acc).2.1.initialS = st.initialS := by
  simp only [afterInitial, hall]
  by_cases h1 : st.consecutiveFailures + 1 = 1
  · have h0 : st.consecutiveFailures = 0 := by omega
    simp only [h1, if_true, hall, h0]
    have := afterReject_allreject b o hall
      { st with dataS := some c, postCount := st.postCount + 1 + 1,
                consecutiveFailures := 1 }
      (acc ++ [c] ++ [c])
    simpa [h0] using this
  · simp only [h1, if_false]
    have := afterReject_allreject b o hall
      { st with dataS := some c, postCount := st.postCount + 1,
                consecutiveFailures := st.consecutiveFailures + 1 }
      (acc ++ [c])
    simpa using this

theorem simulate_initialS (c b : String) (o : Nat → PostResult) (st : SessionState) :
    (simulateReadingRequest c b o st).2.1.initialS = st.initialS := by
  simp only [simulateReadingRequest]
  cases hi : st.initialS with
  | none =>
    have := afterInitial_initialS c b o { st with dataS := none } []
    simp_all
  | some s0 =>
    simp only [hi]
    cases hr : o st.postCount with
    | accepted => simp [hi]
    | rejected =>
      have := afterInitial_initialS c b o
        { st with dataS := some s0, postCount := st.postCount + 1 } []
      simp_all
    | errored =>
      have := afterInitial_initialS c b o
        { st with dataS := some s0, postCount := st.postCount + 1 } []
      simp_all

theorem simulate_success_consec (c b : String) (o : Nat → PostResult)
    (st : SessionState) (h : (simulateReadingRequest c b o st).1 = .success) :
    (simulateReadingRequest c b o st).2.1.consecutiveFailures = 0 := by
  simp only [simulateReadingRequest] at h ⊢
  cases hi : st.initialS with
  | none =>
    simp only [hi] at h ⊢
    exact afterInitial_success_consec _ _ _ _ _ h
  | some s0 =>
    simp only [hi] at h ⊢
    cases hr : o st.postCount with
    | accepted => simp [hr]
    | rejected =>
      simp only [hr] at h ⊢
      exact afterInitial_success_consec _ _ _ _ _ h
    | errored =>
      simp only [hr] at h ⊢
      exact afterInitial_success_consec _ _ _ _ _ h

theorem simulate_allreject (c b : String) (o : Nat → PostResult)
    (hall : ∀ n, o n = .rejected) (st : SessionState) :
    (simulateReadingRequest c b o st).1
        = (if st.consecutiveFailures + 1 ≥ 3 then ReadOutcome.fatal else ReadOutcome.failure)
      ∧ (simulateReadingRequest c b o st).2.1.consecutiveFailures
          = st.consecutiveFailures + 1
      ∧ (simulateReadingRequest c b o st).2.1.initialS = st.initialS := by
  simp only [simulateReadingRequest]
  cases hi : st.initialS with
  | none =>
    have := afterInitial_allreject c b o hall { st with dataS := none } []
    simp_all
  | some s0 =>
    simp only [hi, hall]
    have := afterInitial_allreject c b o hall
      { st with dataS := some s0, postCount := st.postCount + 1 } []
    simp_all

/-- C2 (counterexample): the captured initial signature is *not* one-shot.
`_initial_s_from_curl` is never cleared or flagged, so with the captured
`s = "abc"` present and every request rejected, the first read call sends
`"abc"` — and the very next call sends `"abc"` again as its first request. -/
theorem initial_s_retried_counterexample :
    (simulateReadingRequest "c1" "v1" (fun _ => PostResult.rejected)
        ⟨0, false, some "abc", none, 0⟩).2.2.head? = some "abc"
    ∧ (simulateReadingRequest "c2" "v2" (fun _ => PostResult.rejected)
        (simulateReadingRequest "c1" "v1" (fun _ => PostResult.rejected)
          ⟨0, false, some "abc", none, 0⟩).2.1).2.2.head? = some "abc" := by
  exact ⟨rfl, rfl⟩

/-- C2 (amended): the captured initial signature is attempted at the start
of *every* read-request call in which it is present — it is never marked as
tried and never removed: each call first sends a request carrying the
captured `s`, and the captured value survives the call unchanged. -/
theorem initial_s_tried_every_iteration (c b : String) (o : Nat → PostResult)
    (st : SessionState) (s0 : String) (h : st.initialS = some s0) :
    (simulateReadingRequest c b o st).2.2.head? = some s0
    ∧ (simulateReadingRequest c b o st).2.1.initialS = some s0 := by
  refine ⟨?_, by rw [simulate_initialS, h]⟩
  simp only [simulateReadingRequest, h]
  cases o st.postCount <;> simp

/-- C2 (witness): the amended theorem at a concrete state with captured
signature "abc". -/
theorem initial_s_tried_every_iteration_witness :
    (simulateReadingRequest "c1" "v1" (fun _ => PostResult.rejected)
        ⟨0, false, some "abc", none, 0⟩).2.2.head? = some "abc"
    ∧ (simulateReadingRequest "c1" "v1" (fun _ => PostResult.rejected)
        ⟨0, false, some "abc", none, 0⟩).2.1.initialS = some "abc" :=
  initial_s_tried_every_iteration "c1" "v1" (fun _ => PostResult.rejected)
    ⟨0, false, some "abc", none, 0⟩ "abc" rfl

/-- C5: starting from a reset failure counter, three consecutive read calls
whose every request is rejected (so no escalation rung succeeds) produce
two failed reads and then `FatalSessionError`; and any read call reported
as accepted leaves the consecutive-failure counter at 0. -/
theorem three_consecutive_rejections_fatal :
    (∀ (oracle : Nat → PostResult) (c1 v1 c2 v2 c3 v3 : String) (st : SessionState),
      (∀ n, oracle n = .rejected) → st.consecutiveFailures = 0 →
      (simulateReadingRequest c1 v1 oracle st).1 = .failure
      ∧ (simulateReadingRequest c2 v2 oracle
          (simulateReadingRequest c1 v1 oracle st).2.1).1 = .failure
      ∧ (simulateReadingRequest c3 v3 oracle
          (simulateReadingRequest c2 v2 oracle
            (simulateReadingRequest c1 v1 oracle st).2.1).2.1).1 = .fatal)
    ∧ (∀ (oracle : Nat → PostResult) (c v : String) (st : SessionState),
      (simulateReadingRequest c v oracle st).1 = .success →
      (simulateReadingRequest c v oracle st).2.1.consecutiveFailures = 0) := by
  constructor
  · intro oracle c1 v1 c2 v2 c3 v3 st hall h0
    obtain ⟨ho1, hc1, _⟩ := simulate_allreject c1 v1 oracle hall st
    obtain ⟨ho2, hc2, _⟩ := simulate_allreject c2 v2 oracle hall
      (simulateReadingRequest c1 v1 oracle st).2.1
    obtain ⟨ho3, _, _⟩ := simulate_allreject c3 v3 oracle hall
      (simulateReadingRequest c2 v2 oracle
        (simulateReadingRequest c1 v1 oracle st).2.1).2.1
    rw [h0] at ho1 hc1
    rw [hc1] at ho2 hc2
    rw [hc2] at ho3
    refine ⟨by simpa using ho1, by simpa using ho2, by simpa using ho3⟩
  · intro oracle c v st h
    exact simulate_success_consec c v oracle st h

/-- C5 (witness): the fatal promotion at a concrete fresh state under an
all-rejecting oracle, and the counter reset at a concrete accepted call. -/
theorem three_consecutive_rejections_fatal_witness :
    ((simulateReadingRequest "a" "b" (fun _ => PostResult.rejected)
        ⟨0, false, none, none, 0⟩).1 = .failure
      ∧ (simulateReadingRequest "a" "b" (fun _ => PostResult.rejected)
          (simulateReadingRequest "a" "b" (fun _ => PostResult.rejected)
            ⟨0, false, none, none, 0⟩).2.1).1 = .failure
      ∧ (simulateReadingRequest "a" "b" (fun _ => PostResult.rejected)
          (simulateReadingRequest "a" "b" (fun _ => PostResult.rejected)
            (simulateReadingRequest "a" "b" (fun _ => PostResult.rejected)
              ⟨0, false, none, none, 0⟩).2.1).2.1).1 = .fatal)
    ∧ (simulateReadingRequest "a" "b" (fun _ => PostResult.accepted)
        ⟨2, false, none, none, 0⟩).2.1.consecutiveFailures = 0 :=
  ⟨three_consecutive_rejections_fatal.1 (fun _ => PostResult.rejected)
      "a" "b" "a" "b" "a" "b" ⟨0, false, none, none, 0⟩ (fun _ => rfl) rfl,
   three_consecutive_rejections_fatal.2 (fun _ => PostResult.accepted)
      "a" "b" ⟨2, false, none, none, 0⟩ rfl⟩

/-! ## Claim C6: the reading loop
    (`WeReadSessionManager.start_reading_session`, session.py lines 253-311)

One iteration of the `while` loop is driven by two oracles: `events i`
describes what `_simulate_reading_request` produced on iteration `i`
(accepted with a credited amount, a failed read, an exception caught by the
generic handler, or `FatalSessionError`), and `walls i` is the wall-clock
duration recorded at the end of iteration `i`.  The exception path does not
update the wall clock (the update at lines 278-280 is skipped).  `none`
models abnormal termination (fatal error) or exhausted fuel; `some st` is
normal completion with the loop state at exit. -/

inductive IterEvent where
  | success (credited : Nat) : IterEvent
  | failed : IterEvent
  | errored : IterEvent
  | fatalError : IterEvent

structure LoopState where
  creditedSeconds : Nat
  actualDurationSeconds : Nat
deriving DecidableEq

/-- `max_wall_seconds = max(target_seconds * 3, target_seconds + 600)`
(line 257). -/
def maxWallSeconds (targetSeconds : Nat) : Nat :=
  max (targetSeconds * 3) (targetSeconds + 600)

def readingLoop (targetSeconds : Nat) (events : Nat → IterEvent) (walls : Nat → Nat) :
    Nat → Nat → LoopState → Option LoopState
  | 0, _, _ => none
  | fuel + 1, i, st =>
    if st.creditedSeconds < targetSeconds
        ∧ st.actualDurationSeconds < maxWallSeconds targetSeconds then
      match events i with
      | .fatalError => none
      | .success c => readingLoop targetSeconds events walls fuel (i + 1)
          { creditedSeconds := st.creditedSeconds + c, actualDurationSeconds := walls i }
      | .failed => readingLoop targetSeconds events walls fuel (i + 1)
          { st with actualDurationSeconds := walls i }
      | .errored => readingLoop targetSeconds events walls fuel (i + 1) st
    else some st

/-- C6: whenever the reading loop completes normally, at the moment it exits
the credited seconds have reached the target or the recorded wall-clock
seconds have reached the cap `max(3*target, target+600)`; it never exits
normally while simultaneously under-target and under-cap. -/
theorem reading_loop_exit_condition (targetSeconds : Nat)
    (events : Nat → IterEvent) (walls : Nat → Nat) :
    ∀ (fuel i : Nat) (st final : LoopState),
      readingLoop targetSeconds events walls fuel i st = some final →
      targetSeconds ≤ final.creditedSeconds
      ∨ maxWallSeconds targetSeconds ≤ final.actualDurationSeconds := by
  intro fuel
  induction fuel with
  | zero => intro i st final h; exact absurd h (by simp [readingLoop])
  | succ f ih =>
    intro i st final h
    simp only [readingLoop] at h
    by_cases hg : st.creditedSeconds < targetSeconds
        ∧ st.actualDurationSeconds < maxWallSeconds targetSeconds
    · rw [if_pos hg] at h
      cases he : events i with
      | fatalError => rw [he] at h; exact absurd h (by simp)
      | success c => rw [he] at h; exact ih _ _ _ h
      | failed => rw [he] at h; exact ih _ _ _ h
      | errored => rw [he] at h; exact ih _ _ _ h
    · rw [if_neg hg] at h
      rw [Option.some.injEq] at h
      subst h
      omega

/-- C6 (witness): a concrete run — one accepted read of 60 seconds against a
60-second target — exits with the credited side of the disjunction. -/
theorem reading_loop_exit_condition_witness :
    60 ≤ (LoopState.mk 60 1).creditedSeconds
    ∨ maxWallSeconds 60 ≤ (LoopState.mk 60 1).actualDurationSeconds :=
  reading_loop_exit_condition 60 (fun _ => IterEvent.success 60) (fun _ => 1)
    5 0 ⟨0, 0⟩ ⟨60, 1⟩ rfl

/-! ## Claims C8, C9: `SmartReadingManager` content selection
    (src/weread_bot/reading.py lines 83-209)

The catalog `book_chapters_map` is an insertion-ordered association list
`bookId → chapters` (a Python dict); the manager state keeps the fields the
claims depend on (`current_book_name` and `current_chapter_ci` are display /
payload bookkeeping and are elided).  `random.choice(seq)` and
`random.randint(0, n-1)` are modelled by an arbitrary draw reduced modulo
the sequence length (every element reachable; choosing from an empty
sequence raises, i.e. `none`).  The time/probability tests deciding
`should_switch_book` / `should_skip_chapter` are passed in as booleans. -/

abbrev Catalog := List (String × List String)

structure RState where
  currentBookId : String
  currentChapterId : String
  currentBookChapters : List String
  currentChapterIndex : Nat
deriving DecidableEq

/-- Python dict lookup `book_chapters_map[bid]` / membership `bid in map`. -/
def lookupBook (catalog : Catalog) (bid : String) : Option (List String) :=
  (catalog.find? (fun e => e.1 == bid)).map (fun e => e.2)

def bookIds (catalog : Catalog) : List String := catalog.map Prod.fst

/-- `random.choice`: an arbitrary draw reduced modulo the length; an empty
sequence raises `IndexError`. -/
def pyChoice {α : Type} (l : List α) (r : Nat) : Option α :=
  if l.isEmpty then none else l.get? (r % l.length)

/-- `_switch_to_book` (lines 150-157): only acts when the book is in the
catalog; `chapters[0]` raises on an empty chapter list. -/
def switchToBook (catalog : Catalog) (st : RState) (bid : String) : Option RState :=
  match lookupBook catalog bid with
  | none => some st
  | some chs =>
    match chs.head? with
    | none => none
    | some c0 =>
      some { currentBookId := bid, currentChapterId := c0,
             currentBookChapters := chs, currentChapterIndex := 0 }

/-- `_next_chapter` (lines 174-191): no-op on an empty chapter list;
increment the index; on overflow move to the next catalog book after the
current one (wrapping), or to the first book when the current id is not a
catalog key (`list(...)[0]` raises on an empty catalog). -/
def nextChapter (catalog : Catalog) (st : RState) : Option RState :=
  if st.currentBookChapters.isEmpty then some st
  else
    let idx := st.currentChapterIndex + 1
    if idx ≥ st.currentBookChapters.length then
      let ids := bookIds catalog
      match ids.findIdx? (fun x => x == st.currentBookId) with
      | some bi => switchToBook catalog st (ids.getD ((bi + 1) % ids.length) "")
      | none =>
        match ids.head? with
        | some first => switchToBook catalog st first
        | none => none
    else
      some { st with currentChapterIndex := idx,
                     currentChapterId := st.currentBookChapters.getD idx "" }

/-- `_sequential_position` (lines 159-161). -/
def sequentialPosition (catalog : Catalog) (st : RState) :
    Option ((String × String) × RState) :=
  (nextChapter catalog st).map (fun st2 => ((st2.currentBookId, st2.currentChapterId), st2))

/-- `_pure_random_position` (lines 163-172): raises on an empty catalog;
draws a book, then a chapter of that book; updates id, chapter and the
chapter list (the index is left as is, as in the source). -/
def pureRandomPosition (catalog : Catalog) (st : RState) (r1 r2 : Nat) :
    Option ((String × String) × RState) :=
  if catalog.isEmpty then none
  else
    match pyChoice (bookIds catalog) r1 with
    | none => none
    | some bid =>
      match lookupBook catalog bid with
      | none => none
      | some chs =>
        match pyChoice chs r2 with
        | none => none
        | some cid =>
          some ((bid, cid),
            { st with currentBookId := bid, currentChapterId := cid,
                      currentBookChapters := chs })

/-- `_fallback_to_config` (lines 193-203): with fallback enabled and a
non-empty catalog, switch to the first book and report `true`; else report
`false` without touching the state. -/
def fallbackToConfig (catalog : Catalog) (fallbackCfg : Bool) (st : RState) :
    Option (Bool × RState) :=
  if fallbackCfg ∧ ¬catalog.isEmpty then
    (switchToBook catalog st ((bookIds catalog).getD 0 "")).map (fun st2 => (true, st2))
  else some (false, st)

/-- The main body of `_smart_random_position` (lines 124-148), after the
state guard: maybe switch to a uniformly drawn *other* book (only when more
than one book exists), then either jump to a uniformly drawn chapter of the
current book (only when it has more than one chapter) or advance
sequentially. -/
def smartMain (catalog : Catalog) (st0 : RState) (shouldSwitch shouldSkip : Bool)
    (rSwitch rSkip : Nat) : Option ((String × String) × RState) :=
  let afterSwitch : Option RState :=
    if shouldSwitch && decide (catalog.length > 1) then
      let others := (bookIds catalog).filter (fun x => !(x == st0.currentBookId))
      match pyChoice others rSwitch with
      | none => none
      | some nb => switchToBook catalog st0 nb
    else some st0
  match afterSwitch with
  | none => none
  | some st1 =>
    let afterSkip : Option RState :=
      if shouldSkip && decide (st1.currentBookChapters.length > 1) then
        let i := rSkip % st1.currentBookChapters.length
        some { st1 with currentChapterIndex := i,
                        currentChapterId := st1.currentBookChapters.getD i "" }
      else nextChapter catalog st1
    afterSkip.map (fun st2 => ((st2.currentBookId, st2.currentChapterId), st2))

/-- `_smart_random_position` (lines 96-148): when the current state lacks a
book or a chapter list, fall back to configuration (proceeding with the
switched state on success) or to pure-random selection on failure. -/
def smartRandomPosition (catalog : Catalog) (fallbackCfg : Bool) (st : RState)
    (shouldSwitch shouldSkip : Bool) (rSwitch rSkip rP1 rP2 : Nat) :
    Option ((String × String) × RState) :=
  if st.currentBookId == "" || st.currentBookChapters.isEmpty then
    match fallbackToConfig catalog fallbackCfg st with
    | none => none
    | some (true, st1) => smartMain catalog st1 shouldSwitch shouldSkip rSwitch rSkip
    | some (false, _) => pureRandomPosition catalog st rP1 rP2
  else smartMain catalog st shouldSwitch shouldSkip rSwitch rSkip

theorem mem_of_pyChoice {α : Type} (l : List α) (r : Nat) (x : α)
    (h : pyChoice l r = some x) : x ∈ l := by
  unfold pyChoice at h
  by_cases he : l.isEmpty
  · simp [he] at h
  · simp only [he, if_false] at h
    exact List.get?_mem h

theorem mem_getD_str (l : List String) (i : Nat) (h : i < l.length) :
    l.getD i "" ∈ l := by
  rw [List.getD_eq_getElem l "" h]
  exact List.getElem_mem h

theorem head?_eq_getD (l : List String) (h : ¬ l.isEmpty) :
    l.head? = some (l.getD 0 "") := by
  cases l with
  | nil => simp at h
  | cons a t => rfl

theorem lookup_of_mem_keys (catalog : Catalog) (b : String)
    (h : b ∈ bookIds catalog) : ∃ chs, lookupBook catalog b = some chs := by
  induction catalog with
  | nil => simp [bookIds] at h
  | cons e rest ih =>
    by_cases heq : e.1 = b
    · exact ⟨e.2, by simp [lookupBook, heq]⟩
    · have hb : b ∈ bookIds rest := by
        simp only [bookIds, List.map_cons, List.mem_cons] at h
        exact h.resolve_left (fun hh => heq hh.symm)
      obtain ⟨chs, hchs⟩ := ih hb
      refine ⟨chs, ?_⟩
      simp only [lookupBook, List.find?_cons] at hchs ⊢
      have : (e.1 == b) = false := by simp [heq]
      rw [this]
      exact hchs

theorem switchToBook_member (catalog : Catalog) (st : RState) (bid : String)
    (st2 : RState) (hmem : bid ∈ bookIds catalog)
    (h : switchToBook catalog st bid = some st2) :
    lookupBook catalog st2.currentBookId = some st2.currentBookChapters
    ∧ st2.currentChapterId ∈ st2.currentBookChapters := by
  obtain ⟨chs, hchs⟩ := lookup_of_mem_keys catalog bid hmem
  cases hh : chs.head? with
  | none => simp [switchToBook, hchs, hh] at h
  | some c0 =>
    simp only [switchToBook, hchs, hh, Option.some.injEq] at h
    subst h
    exact ⟨hchs, by simpa using List.mem_of_mem_head? hh⟩

theorem nextChapter_member (catalog : Catalog) (st st2 : RState)
    (hb : lookupBook catalog st.currentBookId = some st.currentBookChapters)
    (hne : ¬ st.currentBookChapters.isEmpty)
    (h : nextChapter catalog st = some st2) :
    lookupBook catalog st2.currentBookId = some st2.currentBookChapters
    ∧ st2.currentChapterId ∈ st2.currentBookChapters := by
  have hcatne : ¬ catalog.isEmpty := by
    intro hc
    cases catalog with
    | nil => simp [lookupBook] at hb
    | cons _ _ => simp at hc
  simp only [nextChapter] at h
  rw [if_neg hne] at h
  by_cases hov : st.currentChapterIndex + 1 ≥ st.currentBookChapters.length
  · rw [if_pos hov] at h
    cases hf : (bookIds catalog).findIdx? (fun x => x == st.currentBookId) with
    | some bi =>
      rw [hf] at h
      have hn : 0 < (bookIds catalog).length := by
        cases catalog with
        | nil => simp at hcatne
        | cons _ _ => simp [bookIds]
      refine switchToBook_member catalog st _ st2 ?_ h
      exact mem_getD_str _ _ (Nat.mod_lt _ hn)
    | none =>
      rw [hf] at h
      cases hh : (bookIds catalog).head? with
      | none =>
        rw [hh] at h
        exact absurd h (by simp)
      | some first =>
        rw [hh] at h
        exact switchToBook_member catalog st first st2 (List.mem_of_mem_head? hh) h
  · rw [if_neg hov] at h
    rw [Option.some.injEq] at h
    subst h
    refine ⟨hb, ?_⟩
    show st.currentBookChapters.getD (st.currentChapterIndex + 1) "" ∈ st.currentBookChapters
    exact mem_getD_str _ _ (by omega)

theorem smartMain_member (catalog : Catalog) (st0 : RState)
    (sw sk : Bool) (rs rk : Nat) (b c : String) (st2 : RState)
    (hb : lookupBook catalog st0.currentBookId = some st0.currentBookChapters)
    (hne : ¬ st0.currentBookChapters.isEmpty)
    (h : smartMain catalog st0 sw sk rs rk = some ((b, c), st2)) :
    ∃ chs, lookupBook catalog b = some chs ∧ c ∈ chs := by
  simp only [smartMain] at h
  have main2 : ∀ st1 : RState,
      lookupBook catalog st1.currentBookId = some st1.currentBookChapters →
      ¬ st1.currentBookChapters.isEmpty →
      ((if sk && decide (st1.currentBookChapters.length > 1) then
          some { st1 with currentChapterIndex := rk % st1.currentBookChapters.length,
                          currentChapterId :=
                            st1.currentBookChapters.getD (rk % st1.currentBookChapters.length) "" }
        else nextChapter catalog st1).map
          (fun stx => ((stx.currentBookId, stx.currentChapterId), stx))) = some ((b, c), st2) →
      ∃ chs, lookupBook catalog b = some chs ∧ c ∈ chs := by
    intro st1 hb1 hne1 hstep
    by_cases hsk : sk && decide (st1.currentBookChapters.length > 1)
    · rw [if_pos hsk] at hstep
      simp only [Option.map_some', Option.some.injEq] at hstep
      have hlen : st1.currentBookChapters.length > 1 := by
        rcases Bool.and_eq_true_iff.mp hsk with ⟨_, hd⟩
        exact of_decide_eq_true hd
      obtain ⟨hpair, hst⟩ := Prod.mk.injEq .. ▸ hstep
      refine ⟨st1.currentBookChapters, ?_, ?_⟩
      · have hbq : b = st1.currentBookId := by
          have := congrArg Prod.fst hpair
          simpa using this.symm
        rw [hbq]; exact hb1
      · have hcq : c = st1.currentBookChapters.getD
            (rk % st1.currentBookChapters.length) "" := by
          have := congrArg Prod.snd hpair
          simpa using this.symm
        rw [hcq]
        exact mem_getD_str _ _ (Nat.mod_lt _ (by omega))
    · rw [if_neg hsk] at hstep
      cases hnc : nextChapter catalog st1 with
      | none => rw [hnc] at hstep; exact absurd hstep (by simp)
      | some stx =>
        rw [hnc] at hstep
        simp only [Option.map_some', Option.some.injEq] at hstep
        obtain ⟨hm1, hm2⟩ := nextChapter_member catalog st1 stx hb1 hne1 hnc
        have hbq : b = stx.currentBookId := by
          have := congrArg (fun z => z.1.1) hstep
          simpa using this.symm
        have hcq : c = stx.currentChapterId := by
          have := congrArg (fun z => z.1.2) hstep
          simpa using this.symm
        exact ⟨stx.currentBookChapters, by rw [hbq]; exact hm1, by rw [hcq]; exact hm2⟩
  by_cases hsw : sw && decide (catalog.length > 1)
  · rw [if_pos hsw] at h
    cases hch : pyChoice ((bookIds catalog).filter
        (fun x => !(x == st0.currentBookId))) rs with
    | none =>
      simp [hch] at h
    | some nb =>
      cases hsb : switchToBook catalog st0 nb with
      | none => simp [hch, hsb] at h
      | some st1 =>
        simp only [hch, hsb] at h
        have hnbmem : nb ∈ bookIds catalog :=
          List.mem_of_mem_filter (mem_of_pyChoice _ _ _ hch)
        obtain ⟨hm1, hm2⟩ := switchToBook_member catalog st0 nb st1 hnbmem hsb
        exact main2 st1 hm1 (by
          intro hemp
          rw [List.isEmpty_iff] at hemp
          rw [hemp] at hm2
          simp at hm2) h
  · rw [if_neg hsw] at h
    exact main2 st0 hb hne h

theorem pureRandom_member (catalog : Catalog) (st : RState) (r1 r2 : Nat)
    (b c : String) (st2 : RState)
    (h : pureRandomPosition catalog st r1 r2 = some ((b, c), st2)) :
    ∃ chs, lookupBook catalog b = some chs ∧ c ∈ chs := by
  simp only [pureRandomPosition] at h
  by_cases hc : catalog.isEmpty
  · simp [hc] at h
  · rw [if_neg hc] at h
    cases h1 : pyChoice (bookIds catalog) r1 with
    | none => simp [h1] at h
    | some bid =>
      cases h2 : lookupBook catalog bid with
      | none => simp [h1, h2] at h
      | some chs =>
        cases h3 : pyChoice chs r2 with
        | none => simp [h1, h2, h3] at h
        | some cid =>
          simp only [h1, h2, h3, Option.some.injEq, Prod.mk.injEq] at h
          obtain ⟨⟨hb, hc2⟩, _⟩ := h
          subst hb; subst hc2
          exact ⟨chs, h2, mem_of_pyChoice _ _ _ h3⟩

theorem smartRandom_member (catalog : Catalog) (fallbackCfg : Bool) (st : RState)
    (sw sk : Bool) (rs rk rp1 rp2 : Nat) (b c : String) (st2 : RState)
    (hb : lookupBook catalog st.currentBookId = some st.currentBookChapters)
    (h : smartRandomPosition catalog fallbackCfg st sw sk rs rk rp1 rp2
          = some ((b, c), st2)) :
    ∃ chs, lookupBook catalog b = some chs ∧ c ∈ chs := by
  simp only [smartRandomPosition] at h
  by_cases hg : (st.currentBookId == "" || st.currentBookChapters.isEmpty) = true
  · rw [if_pos hg] at h
    cases hf : fallbackToConfig catalog fallbackCfg st with
    | none => simp [hf] at h
    | some pr =>
      obtain ⟨flag, st1⟩ := pr
      cases flag with
      | false =>
        simp only [hf] at h
        exact pureRandom_member catalog st rp1 rp2 b c st2 h
      | true =>
        simp only [hf] at h
        -- a successful fallback switched to the first catalog book
        have hcase : lookupBook catalog st1.currentBookId = some st1.currentBookChapters
            ∧ st1.currentChapterId ∈ st1.currentBookChapters := by
          unfold fallbackToConfig at hf
          by_cases hcond : fallbackCfg ∧ ¬catalog.isEmpty
          · rw [if_pos hcond] at hf
            cases hs : switchToBook catalog st ((bookIds catalog).getD 0 "") with
            | none => rw [hs] at hf; simp at hf
            | some stx =>
              rw [hs] at hf
              simp only [Option.map_some', Option.some.injEq, Prod.mk.injEq] at hf
              have hfirst : (bookIds catalog).getD 0 "" ∈ bookIds catalog := by
                apply mem_getD_str
                cases catalog with
                | nil => exact absurd rfl hcond.2
                | cons _ _ => simp [bookIds]
              have := switchToBook_member catalog st _ stx hfirst hs
              rw [← hf.2]
              exact this
          · rw [if_neg hcond] at hf
            simp at hf
        have hne1 : ¬ st1.currentBookChapters.isEmpty = true := by
          intro hemp
          rw [List.isEmpty_iff] at hemp
          rw [hemp] at hcase
          simp at hcase
        exact smartMain_member catalog st1 sw sk rs rk b c st2 hcase.1 hne1 h
  · rw [if_neg hg] at h
    have hne : ¬ st.currentBookChapters.isEmpty = true := by
      intro hemp
      exact hg (by simp [hemp])
    exact smartMain_member catalog st sw sk rs rk b c st2 hb hne h

/-- C9: in `pure_random` and `smart_random` modes, every (book, chapter)
pair the manager returns is a member of the catalog: the book is a key of
`book_chapters_map` and the chapter occurs in that book's chapter list —
for every catalog, state, and sequence of random draws (for `smart_random`,
under the invariant that the current chapter list is the catalog entry of
the current book). -/
theorem random_modes_return_catalog_members :
    (∀ (catalog : Catalog) (st : RState) (r1 r2 : Nat) (b c : String) (st2 : RState),
      pureRandomPosition catalog st r1 r2 = some ((b, c), st2) →
      ∃ chs, lookupBook catalog b = some chs ∧ c ∈ chs)
    ∧ (∀ (catalog : Catalog) (fallbackCfg : Bool) (st : RState)
        (sw sk : Bool) (rs rk rp1 rp2 : Nat) (b c : String) (st2 : RState),
      lookupBook catalog st.currentBookId = some st.currentBookChapters →
      smartRandomPosition catalog fallbackCfg st sw sk rs rk rp1 rp2
          = some ((b, c), st2) →
      ∃ chs, lookupBook catalog b = some chs ∧ c ∈ chs) :=
  ⟨fun catalog st r1 r2 b c st2 h => pureRandom_member catalog st r1 r2 b c st2 h,
   fun catalog fb st sw sk rs rk rp1 rp2 b c st2 hb h =>
     smartRandom_member catalog fb st sw sk rs rk rp1 rp2 b c st2 hb h⟩

/-- C9 (witness): both modes at a concrete two-book catalog. -/
theorem random_modes_return_catalog_members_witness :
    (∃ chs, lookupBook [("b1", ["c1", "c2"]), ("b2", ["d1"])] "b2" = some chs
        ∧ "d1" ∈ chs)
    ∧ (∃ chs, lookupBook [("b1", ["c1", "c2"]), ("b2", ["d1"])] "b1" = some chs
        ∧ "c2" ∈ chs) :=
  ⟨random_modes_return_catalog_members.1 [("b1", ["c1", "c2"]), ("b2", ["d1"])]
      ⟨"b1", "c1", ["c1", "c2"], 0⟩ 1 0 "b2" "d1"
      ⟨"b2", "d1", ["d1"], 0⟩ rfl,
   random_modes_return_catalog_members.2 [("b1", ["c1", "c2"]), ("b2", ["d1"])]
      false ⟨"b1", "c1", ["c1", "c2"], 0⟩ false false 0 0 0 0 "b1" "c2"
      ⟨"b1", "c2", ["c1", "c2"], 1⟩ rfl rfl⟩

theorem findIdx_of_nodup_aux (x : String) :
    ∀ (l : List String) (s bi : Nat), l.Nodup → l.get? bi = some x →
      l.findIdx? (fun y => y == x) s = some (s + bi) := by
  intro l
  induction l with
  | nil => intro s bi _ h; simp at h
  | cons a t ih =>
    intro s bi hnd hget
    cases bi with
    | zero =>
      rw [List.get?_cons_zero, Option.some.injEq] at hget
      subst hget
      rw [List.findIdx?_cons]
      simp
    | succ n =>
      rw [List.get?_cons_succ] at hget
      have hxmem : x ∈ t := List.get?_mem hget
      have hnd' := List.nodup_cons.mp hnd
      have hne : (a == x) = false := by
        simp only [beq_eq_false_iff_ne, ne_eq]
        intro he
        exact hnd'.1 (he ▸ hxmem)
      rw [List.findIdx?_cons, hne]
      simp only [Bool.false_eq_true, if_false]
      rw [ih (s + 1) n hnd'.2 hget]
      congr 1
      omega

theorem lookup_of_get (catalog : Catalog) :
    ∀ (k : Nat) (e : String × List String), (bookIds catalog).Nodup →
      catalog.get? k = some e → lookupBook catalog e.1 = some e.2 := by
  induction catalog with
  | nil => intro k e _ h; simp at h
  | cons hd rest ih =>
    intro k e hnd hget
    cases k with
    | zero =>
      rw [List.get?_cons_zero, Option.some.injEq] at hget
      subst hget
      simp [lookupBook]
    | succ n =>
      rw [List.get?_cons_succ] at hget
      have hmem : e ∈ rest := List.get?_mem hget
      have hnd1 : (hd.1 :: bookIds rest).Nodup := hnd
      have hnd' := List.nodup_cons.mp hnd1
      have hne : (hd.1 == e.1) = false := by
        simp only [beq_eq_false_iff_ne, ne_eq]
        intro he
        exact hnd'.1 (he ▸ List.mem_map_of_mem Prod.fst hmem)
      have hrec := ih n e hnd'.2 hget
      simp only [lookupBook, List.find?_cons, hne] at hrec ⊢
      exact hrec

/-- C8: in sequential mode, from any in-catalog position, one call advances
the chapter index by exactly one within the current book; when the index
passes the last chapter, the position moves to the next book in catalog
iteration order (wrapping from the last book to the first via
`(bi + 1) % length`) with the chapter index reset to 0 and the chapter set
to that book's first chapter — so every chapter of a book is visited before
the next book is entered. -/
theorem sequential_next_position_spec (catalog : Catalog) (st : RState) (bi : Nat)
    (hnd : (bookIds catalog).Nodup)
    (hne : ∀ e ∈ catalog, e.2 ≠ [])
    (hcur : catalog.get? bi = some (st.currentBookId, st.currentBookChapters))
    (hidx : st.currentChapterIndex < st.currentBookChapters.length) :
    (st.currentChapterIndex + 1 < st.currentBookChapters.length →
      sequentialPosition catalog st
        = some ((st.currentBookId,
                  st.currentBookChapters.getD (st.currentChapterIndex + 1) ""),
            { st with currentChapterIndex := st.currentChapterIndex + 1,
                      currentChapterId :=
                        st.currentBookChapters.getD (st.currentChapterIndex + 1) "" }))
    ∧ (st.currentChapterIndex + 1 = st.currentBookChapters.length →
      ∃ bid2 chs2,
        catalog.get? ((bi + 1) % catalog.length) = some (bid2, chs2)
        ∧ sequentialPosition catalog st
            = some ((bid2, chs2.getD 0 ""), ⟨bid2, chs2.getD 0 "", chs2, 0⟩)) := by
  have hnonempty : ¬ st.currentBookChapters.isEmpty = true := by
    intro hemp
    rw [List.isEmpty_iff] at hemp
    rw [hemp] at hidx
    simp at hidx
  constructor
  · intro h2
    simp only [sequentialPosition, nextChapter]
    rw [if_neg hnonempty, if_neg (by omega :
      ¬ st.currentChapterIndex + 1 ≥ st.currentBookChapters.length)]
    rfl
  · intro h2
    have hbilt : bi < catalog.length := by
      obtain ⟨hlt, _⟩ := List.get?_eq_some.mp hcur
      exact hlt
    have hn0 : 0 < catalog.length := by omega
    have hmodlt : (bi + 1) % catalog.length < catalog.length := Nat.mod_lt _ hn0
    obtain ⟨e2, hget2⟩ : ∃ e2, catalog.get? ((bi + 1) % catalog.length) = some e2 :=
      ⟨_, List.get?_eq_get hmodlt⟩
    obtain ⟨bid2, chs2⟩ := e2
    have hidsget : (bookIds catalog).get? bi = some st.currentBookId := by
      unfold bookIds
      rw [List.get?_map, hcur]
      rfl
    have hfind : (bookIds catalog).findIdx? (fun y => y == st.currentBookId)
        = some bi := by
      have := findIdx_of_nodup_aux st.currentBookId (bookIds catalog) 0 bi hnd hidsget
      simpa using this
    have hlens : (bookIds catalog).length = catalog.length := by
      simp [bookIds]
    have hidsgetD : (bookIds catalog).getD ((bi + 1) % (bookIds catalog).length) ""
        = bid2 := by
      rw [hlens]
      have hq : (bookIds catalog).get? ((bi + 1) % catalog.length) = some bid2 := by
        unfold bookIds
        rw [List.get?_map, hget2]
        rfl
      rw [List.getD_eq_getElem?_getD, ← List.get?_eq_getElem?, hq]
      rfl
    have hlook2 : lookupBook catalog bid2 = some chs2 :=
      lookup_of_get catalog _ (bid2, chs2) hnd hget2
    have hne2 : ¬ chs2.isEmpty = true := by
      intro hemp
      rw [List.isEmpty_iff] at hemp
      exact hne (bid2, chs2) (List.get?_mem hget2) hemp
    have hhead : chs2.head? = some (chs2.getD 0 "") := head?_eq_getD chs2 hne2
    refine ⟨bid2, chs2, hget2, ?_⟩
    simp only [sequentialPosition, nextChapter]
    rw [if_neg hnonempty, if_pos (by omega :
      st.currentChapterIndex + 1 ≥ st.currentBookChapters.length)]
    rw [hfind]
    simp only [hidsgetD, switchToBook, hlook2, hhead]
    rfl

/-- C8 (witness): the theorem at a concrete two-book catalog, at the last
chapter of the first book — the position wraps to the second book's first
chapter with index 0. -/
theorem sequential_next_position_spec_witness :
    ∃ bid2 chs2,
      ([("b1", ["c1", "c2"]), ("b2", ["d1"])] : Catalog).get? ((0 + 1) % 2)
          = some (bid2, chs2)
      ∧ sequentialPosition [("b1", ["c1", "c2"]), ("b2", ["d1"])]
            ⟨"b1", "c2", ["c1", "c2"], 1⟩
          = some ((bid2, chs2.getD 0 ""), ⟨bid2, chs2.getD 0 "", chs2, 0⟩) :=
  (sequential_next_position_spec [("b1", ["c1", "c2"]), ("b2", ["d1"])]
      ⟨"b1", "c2", ["c1", "c2"], 1⟩ 0 (by decide) (by decide) rfl (by decide)).2 rfl
